import Mathlib

/-!
Shallow embedding of the obsidian-habit-heatmap plugin sources
(`src/parser.ts`, `src/scanner.ts`, `src/types.ts`, and the renderer module)
together with theorems settling the frozen claims about them.

Modelling conventions:
* JavaScript numbers are modelled exactly over `ℚ` (IEEE-754 rounding of
  arithmetic is not modelled; `NaN` and `undefined` are modelled explicitly
  where the code branches on them).  The one place where double overflow is
  observable (`Number.isFinite` on a huge digit literal) is modelled by the
  exact overflow threshold `2^1024 - 2^970` of round-to-nearest-even.
* JavaScript `Date` objects are modelled as a count of (local) days since the
  Unix epoch; `new Date(y, m, d)` normalisation (month/day overflow and the
  0–99 → 1900+y year adjustment) is implemented via the standard
  civil-from-days / days-from-civil conversions.  All dates handled by the
  plugin are far from the `Date` range limits, so the `NaN`/invalid-date case
  of `getTime()` cannot occur and is not modelled.
* `Map` and `Set` are modelled as association lists / lists preserving
  insertion order, matching JavaScript iteration order.
* Regular expressions are compiled by hand into total matching functions that
  reproduce the exact backtracking behaviour of the JS engine on the concrete
  patterns appearing in the source.
-/

namespace HH

/-! ## Characters and JS string primitives -/

/-- The character class `\s` of JavaScript regular expressions. -/
def jsIsSpace (c : Char) : Bool :=
  let n := c.toNat
  n = 0x20 || n = 0x9 || n = 0xa || n = 0xb || n = 0xc || n = 0xd ||
  n = 0xa0 || n = 0x1680 || (0x2000 ≤ n && n ≤ 0x200a) || n = 0x2028 ||
  n = 0x2029 || n = 0x202f || n = 0x205f || n = 0x3000 || n = 0xfeff

/-- The character class `\d`. -/
def jsIsDigit (c : Char) : Bool :=
  48 ≤ c.toNat && c.toNat ≤ 57

/-- The character class `[a-z0-9_]` used for habit names. -/
def isNameChar (c : Char) : Bool :=
  (97 ≤ c.toNat && c.toNat ≤ 122) || jsIsDigit c || c = '_'

/-- Numeric value of a digit character. -/
def digitVal (c : Char) : ℕ := c.toNat - 48

/-- `Number("<digits>")` on a plain digit string. -/
def digitsToNat (cs : List Char) : ℕ :=
  cs.foldl (fun a c => a * 10 + digitVal c) 0

/-- `String.prototype.trim` (JS `\s`-based). -/
def jsTrim (cs : List Char) : List Char :=
  ((cs.dropWhile jsIsSpace).reverse.dropWhile jsIsSpace).reverse

/-- Strip an expected literal prefix, returning the remainder. -/
def stripLit : List Char → List Char → Option (List Char)
  | [], cs => some cs
  | _ :: _, [] => none
  | p :: ps, c :: cs => if c = p then stripLit ps cs else none

/-- JS `<=` on strings: lexicographic comparison of code units. -/
def charListLe : List Char → List Char → Bool
  | [], _ => true
  | _ :: _, [] => false
  | a :: as, b :: bs =>
    if a.toNat < b.toNat then true
    else if b.toNat < a.toNat then false
    else charListLe as bs

/-- JS `a >= b` on strings. -/
def jsStrGe (a b : String) : Bool := charListLe b.data a.data

/-- `content.split(/\r?\n/)`. -/
def splitLinesAux : List Char → List Char → List (List Char)
  | [], acc => [acc.reverse]
  | '\r' :: '\n' :: rest, acc => acc.reverse :: splitLinesAux rest []
  | '\n' :: rest, acc => acc.reverse :: splitLinesAux rest []
  | c :: rest, acc => splitLinesAux rest (c :: acc)

def splitLines (cs : List Char) : List (List Char) := splitLinesAux cs []

/-! ## JS numbers -/

/-- A JavaScript number as far as the plugin observes it: `NaN` or an exact
rational.  (`±Infinity` is not representable; the only code path that could
produce it — decimal-literal overflow — is modelled by `jsNumberFinite`.) -/
inductive JsNumber where
  | nan : JsNumber
  | num : ℚ → JsNumber
deriving Repr, DecidableEq

/-- `Math.round`: round half toward positive infinity, `⌊q + 1/2⌋`, computed
on the numerator/denominator so that the kernel can evaluate it (see
`jsRound_eq_floor`). -/
def jsRound (q : ℚ) : ℤ := (2 * q.num + q.den) / (2 * (q.den : ℤ))

/-- `Math.min`, on the non-`NaN` arguments it receives here. -/
def jsMin (a b : ℚ) : ℚ := if a ≤ b then a else b

/-- `Math.max`, on the non-`NaN` arguments it receives here. -/
def jsMax (a b : ℚ) : ℚ := if a ≤ b then b else a

/-- Exact magnitude threshold at which round-to-nearest-even takes a decimal
literal to `Infinity`, i.e. `Number.isFinite(Number(s))` turns false. -/
def doubleOverflowBound : ℚ := ((2 ^ 1024 - 2 ^ 970 : ℤ) : ℚ)

/-- `|q| < doubleOverflowBound`, computed on the numerator/denominator so that
the kernel can evaluate it (see `ratAbsLtBound_iff`). -/
def ratAbsLtBound (q : ℚ) : Bool :=
  (q.num.natAbs : ℤ) < (2 ^ 1024 - 2 ^ 970) * (q.den : ℤ)

/-- Full match of `-?\d+(?:\.\d+)?` returning its exact rational value
`±(intPart + fracPart / 10^fracLen)`, built as a single integer quotient. -/
def parseDecimal (cs : List Char) : Option ℚ :=
  let (neg, rest) := match cs with
    | '-' :: r => (true, r)
    | _ => (false, cs)
  let ds := rest.takeWhile jsIsDigit
  if ds = [] then none
  else
    let sign : ℤ := if neg then -1 else 1
    match rest.drop ds.length with
    | [] => some (Rat.divInt (sign * digitsToNat ds) 1)
    | '.' :: fs =>
      if fs ≠ [] ∧ fs.all jsIsDigit then
        some (Rat.divInt (sign * ((digitsToNat ds : ℤ) * 10 ^ fs.length + digitsToNat fs))
          (10 ^ fs.length))
      else none
    | _ => none

/-- `Number(s)` followed by the `Number.isFinite` guard, for the decimal
literals that can reach it in `extractInlineTokens` (every such string fully
matches `-?\d+(?:\.\d+)?`; other `Number` coercions are unreachable there). -/
def jsNumberFinite (s : String) : Option ℚ :=
  match parseDecimal s.data with
  | some q => if ratAbsLtBound q then some q else none
  | none => none

/-! ## JS Date model -/

/-- Days-from-civil conversion (proleptic Gregorian, epoch 1970-01-01). -/
def daysFromCivil (y m d : ℤ) : ℤ :=
  let y2 := if m ≤ 2 then y - 1 else y
  let era := Int.fdiv y2 400
  let yoe := y2 - era * 400
  let mp := if 2 < m then m - 3 else m + 9
  let doy := Int.fdiv (153 * mp + 2) 5 + d - 1
  let doe := yoe * 365 + Int.fdiv yoe 4 - Int.fdiv yoe 100 + doy
  era * 146097 + doe - 719468

/-- Civil-from-days conversion, returning `(year, month 1..12, day 1..31)`. -/
def civilFromDays (t : ℤ) : ℤ × ℤ × ℤ :=
  let z := t + 719468
  let era := Int.fdiv z 146097
  let doe := z - era * 146097
  let yoe :=
    Int.fdiv (doe - Int.fdiv doe 1460 + Int.fdiv doe 36524 - Int.fdiv doe 146096) 365
  let y := yoe + era * 400
  let doy := doe - (365 * yoe + Int.fdiv yoe 4 - Int.fdiv yoe 100)
  let mp := Int.fdiv (5 * doy + 2) 153
  let d := doy - Int.fdiv (153 * mp + 2) 5 + 1
  let m := if mp < 10 then mp + 3 else mp - 9
  (if m ≤ 2 then y + 1 else y, m, d)

/-- The constructor's 0–99 → 1900+y year adjustment. -/
def jsAdjustYear (y : ℤ) : ℤ := if 0 ≤ y ∧ y ≤ 99 then y + 1900 else y

/-- `new Date(year, monthIndex, day)` at local midnight, as epoch days:
month and day overflow are normalised exactly as by `MakeDay`. -/
def jsMakeDate (year monthIndex day : ℤ) : ℤ :=
  let y := jsAdjustYear year
  let ym := y * 12 + monthIndex
  let ny := Int.fdiv ym 12
  let nm := ym - ny * 12
  daysFromCivil ny (nm + 1) 1 + (day - 1)

def getFullYear (t : ℤ) : ℤ := (civilFromDays t).1
def getMonth (t : ℤ) : ℤ := (civilFromDays t).2.1 - 1
def getDate (t : ℤ) : ℤ := (civilFromDays t).2.2

/-! ## Date codecs (`parser.ts` / renderer module helpers) -/

/-- `normalizeIsoDate` (parser.ts): strict `YYYY-MM-DD` shape check followed
by a `Date` round-trip validity check. -/
def normalizeIsoDate (value : String) : Option String :=
  match value.data with
  | [y1, y2, y3, y4, h1, m1, m2, h2, d1, d2] =>
    if ([y1, y2, y3, y4, m1, m2, d1, d2].all jsIsDigit
        && (h1 = '-' : Bool) && (h2 = '-' : Bool)) = true then
      let year : ℤ := digitsToNat [y1, y2, y3, y4]
      let month : ℤ := digitsToNat [m1, m2]
      let day : ℤ := digitsToNat [d1, d2]
      let date := jsMakeDate year (month - 1) day
      if getFullYear date = year ∧ getMonth date = month - 1 ∧ getDate date = day then
        some (String.mk [y1, y2, y3, y4, '-', m1, m2, '-', d1, d2])
      else none
    else none
  | _ => none

/-- `String(n).padStart(2, "0")` as used by `toIsoDate`. -/
def pad2 (s : String) : String :=
  if 2 ≤ s.length then s else if s.length = 1 then "0" ++ s else "00"

/-- `toIsoDate` (renderer module). -/
def toIsoDate (t : ℤ) : String :=
  toString (getFullYear t) ++ "-" ++ pad2 (toString (getMonth t + 1)) ++ "-"
    ++ pad2 (toString (getDate t))

/-- `parseIsoDate` (renderer module). -/
def parseIsoDate (date : String) : Option ℤ :=
  match normalizeIsoDate date with
  | none => none
  | some normalized =>
    match normalized.data with
    | [y1, y2, y3, y4, _, m1, m2, _, d1, d2] =>
      some (jsMakeDate (digitsToNat [y1, y2, y3, y4])
        ((digitsToNat [m1, m2] : ℤ) - 1) (digitsToNat [d1, d2]))
    | _ => none

/-- `addDays` (renderer module): rebuild via the constructor. -/
def addDays (t days : ℤ) : ℤ :=
  jsMakeDate (getFullYear t) (getMonth t) (getDate t + days)

/-- `dayDiffInclusive` (renderer module): millisecond difference of the two
local midnights divided by 86400000, plus one — in the day model this is the
difference of the reconstructed day numbers plus one. -/
def dayDiffInclusive (s e : ℤ) : ℤ :=
  let sm := jsMakeDate (getFullYear s) (getMonth s) (getDate s)
  let em := jsMakeDate (getFullYear e) (getMonth e) (getDate e)
  em - sm + 1

/-- `enumerateDates` (renderer module). -/
def enumerateDates (startIso endIso : String) : List String :=
  match parseIsoDate startIso, parseIsoDate endIso with
  | some s, some e =>
    if e < s then []
    else (List.range (dayDiffInclusive s e).toNat).map (fun i => toIsoDate (addDays s i))
  | _, _ => []

/-! ## Data model (`types.ts`) -/

/-- `TFile` as far as the plugin reads it: path, basename, `stat.mtime`. -/
structure TFile where
  path : String
  basename : String
  mtime : ℤ
deriving Repr, DecidableEq

inductive ResolvedHabitValue where
  | numeric : ℚ → ResolvedHabitValue
  | boolean : Bool → ResolvedHabitValue
deriving Repr, DecidableEq

structure DateAccumulator where
  numericSum : ℚ
  hasNumeric : Bool
  inlineTrue : Bool
  inlineFalse : Bool
  checklistTrue : Bool
  checklistFalse : Bool
deriving Repr, DecidableEq

def freshAccumulator : DateAccumulator :=
  { numericSum := 0, hasNumeric := false, inlineTrue := false,
    inlineFalse := false, checklistTrue := false, checklistFalse := false }

/-- JS `Map` lookup over the insertion-ordered association-list model. -/
def mget {β : Type} : List (String × β) → String → Option β
  | [], _ => none
  | (k, v) :: rest, key => if k = key then some v else mget rest key

/-- JS `Map.set`: update in place if the key exists, else append. -/
def mset {β : Type} : List (String × β) → String → β → List (String × β)
  | [], key, value => [(key, value)]
  | (k, v) :: rest, key, value =>
    if k = key then (k, value) :: rest else (k, v) :: mset rest key value

/-- JS `Set.add` over the insertion-ordered list model. -/
def sadd (s : List String) (x : String) : List String :=
  if x ∈ s then s else s ++ [x]

abbrev AccMap := List (String × List (String × DateAccumulator))
abbrev ValueMap := List (String × List (String × ResolvedHabitValue))

structure ParsedFileData where
  file : TFile
  valuesByDateHabit : ValueMap
  headingLinesByDate : List (String × List ℕ)
deriving Repr, DecidableEq

/-! ## Regex matchers (`parser.ts` patterns) -/

/-- Match of `DATE_HEADING_PATTERN = /^\s{0,3}#{1,6}\s+(\d{4}\.\d{2}\.\d{2})\s*$/`
against a whole line, returning the captured `YYYY.MM.dd` characters. -/
def matchDateHeading (line : List Char) : Option (List Char) :=
  let ind := line.takeWhile jsIsSpace
  if 3 < ind.length then none
  else
    let r1 := line.drop ind.length
    let hashes := r1.takeWhile (fun c => c = '#')
    if hashes.length < 1 ∨ 6 < hashes.length then none
    else
      let r2 := r1.drop hashes.length
      let sp := r2.takeWhile jsIsSpace
      if sp.length = 0 then none
      else
        match r2.drop sp.length with
        | y1 :: y2 :: y3 :: y4 :: p1 :: m1 :: m2 :: p2 :: d1 :: d2 :: tail =>
          if ([y1, y2, y3, y4, m1, m2, d1, d2].all jsIsDigit
              && (p1 = '.' : Bool) && (p2 = '.' : Bool) && tail.all jsIsSpace) = true then
            some [y1, y2, y3, y4, '.', m1, m2, '.', d1, d2]
          else none
        | _ => none

/-- `headingToIso`: `heading.replace(/\./g, "-")`. -/
def headingToIso (cs : List Char) : List Char :=
  cs.map (fun c => if c = '.' then '-' else c)

/-- `parseDateHeading`. -/
def parseDateHeading (line : List Char) : Option String :=
  match matchDateHeading line with
  | none => none
  | some captured => normalizeIsoDate (String.mk (headingToIso captured))

/-- One match of `INLINE_HABIT_PATTERN`, as captured groups. -/
structure InlineMatch where
  habit : List Char
  rawValue : List Char
deriving Repr, DecidableEq

/-- Match the value alternation `(true|false|yes|no|-?\d+(?:\.\d+)?)` at the
head of `cs` (ordered alternatives, maximal-munch number). -/
def matchInlineValue (cs : List Char) : Option (List Char × List Char) :=
  match stripLit "true".data cs with
  | some rest => some ("true".data, rest)
  | none =>
  match stripLit "false".data cs with
  | some rest => some ("false".data, rest)
  | none =>
  match stripLit "yes".data cs with
  | some rest => some ("yes".data, rest)
  | none =>
  match stripLit "no".data cs with
  | some rest => some ("no".data, rest)
  | none =>
    let (sign, r1) := match cs with
      | '-' :: r => (['-'], r)
      | _ => (([] : List Char), cs)
    let ds := r1.takeWhile jsIsDigit
    if ds = [] then none
    else
      match r1.drop ds.length with
      | '.' :: r2 =>
        let fs := r2.takeWhile jsIsDigit
        if fs = [] then some (sign ++ ds, r1.drop ds.length)
        else some (sign ++ ds ++ '.' :: fs, r2.drop fs.length)
      | rest => some (sign ++ ds, rest)

/-- Attempt `INLINE_HABIT_PATTERN = /habit-([a-z0-9_]+)::(...)/ ` at the head
of `cs`; on success return the two captures and the remainder after the match. -/
def tryInlineAt (cs : List Char) : Option (InlineMatch × List Char) :=
  match stripLit "habit-".data cs with
  | none => none
  | some r1 =>
    let name := r1.takeWhile isNameChar
    if name = [] then none
    else
      match stripLit "::".data (r1.drop name.length) with
      | none => none
      | some r2 =>
        match matchInlineValue r2 with
        | none => none
        | some (v, rest) => some (⟨name, v⟩, rest)

/-- `line.matchAll(INLINE_HABIT_PATTERN)`: scan left to right, resuming after
each match (fuel-driven; the fuel `cs.length` always suffices because every
match consumes at least the six characters of `habit-`). -/
def findInlineAux : ℕ → List Char → List InlineMatch
  | 0, _ => []
  | _ + 1, [] => []
  | fuel + 1, c :: rest =>
    match tryInlineAt (c :: rest) with
    | some (m, rest2) => m :: findInlineAux fuel rest2
    | none => findInlineAux fuel rest

def findInlineMatches (cs : List Char) : List InlineMatch :=
  findInlineAux cs.length cs

/-- Read-modify-write of one `(date, habit)` accumulator: models
`getAccumulator` (get-or-create, with in-place mutation of the bucket). -/
def updateAcc (accs : AccMap) (date habit : String)
    (f : DateAccumulator → DateAccumulator) : AccMap :=
  let byHabit := (mget accs date).getD []
  let acc := (mget byHabit habit).getD freshAccumulator
  mset accs date (mset byHabit habit (f acc))

/-- The body of the `extractInlineTokens` loop for one match. -/
def applyInlineMatch (activeDate : String) (accs : AccMap) (m : InlineMatch) : AccMap :=
  let habit := String.mk (jsTrim m.habit)
  let rawValue := String.mk ((jsTrim m.rawValue).map Char.toLower)
  if habit.length = 0 then accs
  else if rawValue = "true" ∨ rawValue = "yes" then
    updateAcc accs activeDate habit (fun a => { a with inlineTrue := true })
  else if rawValue = "false" ∨ rawValue = "no" then
    updateAcc accs activeDate habit (fun a => { a with inlineFalse := true })
  else
    match jsNumberFinite rawValue with
    | some q =>
      updateAcc accs activeDate habit
        (fun a => { a with hasNumeric := true, numericSum := a.numericSum + q })
    | none => accs

/-- `extractInlineTokens`. -/
def extractInlineTokens (line : List Char) (activeDate : String) (accs : AccMap) : AccMap :=
  (findInlineMatches line).foldl (applyInlineMatch activeDate) accs

/-- Match of `CHECKLIST_PATTERN = /^\s*[-*]\s+\[( |x|X)\]\s+(.+)$/` against a
whole line, returning the checked state character and the `(.+)` capture
(backtracking of the greedy `\s+` against `(.+)` is reproduced exactly). -/
def matchChecklist (line : List Char) : Option (Char × List Char) :=
  let ind := line.takeWhile jsIsSpace
  match line.drop ind.length with
  | b :: r1 =>
    if b = '-' ∨ b = '*' then
      let sp := r1.takeWhile jsIsSpace
      if sp = [] then none
      else
        match r1.drop sp.length with
        | '[' :: st :: ']' :: r2 =>
          if st = ' ' ∨ st = 'x' ∨ st = 'X' then
            let sp2 := r2.takeWhile jsIsSpace
            if sp2 = [] then none
            else
              let text := r2.drop sp2.length
              if text ≠ [] then some (st, text)
              else if 2 ≤ sp2.length then some (st, r2.drop (sp2.length - 1))
              else none
          else none
        | _ => none
    else none
  | [] => none

/-- Attempt `CHECKLIST_HABIT_PATTERN = /habit-([a-z0-9_]+)/` at the head. -/
def tryChecklistHabitAt (cs : List Char) : Option (List Char × List Char) :=
  match stripLit "habit-".data cs with
  | none => none
  | some r1 =>
    let name := r1.takeWhile isNameChar
    if name = [] then none else some (name, r1.drop name.length)

def findChecklistHabitsAux : ℕ → List Char → List (List Char)
  | 0, _ => []
  | _ + 1, [] => []
  | fuel + 1, c :: rest =>
    match tryChecklistHabitAt (c :: rest) with
    | some (name, rest2) => name :: findChecklistHabitsAux fuel rest2
    | none => findChecklistHabitsAux fuel rest

def findChecklistHabits (cs : List Char) : List (List Char) :=
  findChecklistHabitsAux cs.length cs

/-- `extractChecklistTokens`. -/
def extractChecklistTokens (line : List Char) (activeDate : String) (accs : AccMap) : AccMap :=
  match matchChecklist line with
  | none => accs
  | some (st, text) =>
    let checked := Char.toLower st = 'x'
    (findChecklistHabits text).foldl
      (fun a name =>
        let habit := String.mk (jsTrim name)
        if habit.length = 0 then a
        else if checked then
          updateAcc a activeDate habit (fun acc => { acc with checklistTrue := true })
        else
          updateAcc a activeDate habit (fun acc => { acc with checklistFalse := true }))
      accs

/-! ## Accumulator resolution (`parser.ts`) -/

/-- `resolveBoolean`: merge rule for boolean values within one day. -/
def resolveBoolean (acc : DateAccumulator) : Option Bool :=
  if acc.inlineTrue then some true
  else if acc.checklistTrue then some true
  else if acc.checklistFalse then some false
  else if acc.inlineFalse then some false
  else none

/-- The body of the inner `resolveAccumulators` loop for one habit. -/
def resolveHabitEntryStep (r : List (String × ResolvedHabitValue))
    (h : String × DateAccumulator) : List (String × ResolvedHabitValue) :=
  if h.2.hasNumeric then mset r h.1 (ResolvedHabitValue.numeric h.2.numericSum)
  else
    match resolveBoolean h.2 with
    | some b => mset r h.1 (ResolvedHabitValue.boolean b)
    | none => r

/-- The body of the outer `resolveAccumulators` loop for one date. -/
def resolveDateStep (out : ValueMap) (entry : String × List (String × DateAccumulator)) :
    ValueMap :=
  let resolvedByHabit := entry.2.foldl resolveHabitEntryStep []
  if 0 < resolvedByHabit.length then mset out entry.1 resolvedByHabit else out

/-- `resolveAccumulators`. -/
def resolveAccumulators (accs : AccMap) : ValueMap :=
  accs.foldl resolveDateStep []

/-! ## `parseMarkdownHabits` (parser.ts) -/

structure ParseState where
  accs : AccMap
  headings : List (String × List ℕ)
  activeDate : Option String

/-- The body of the main line loop. -/
def parseLineStep (st : ParseState) (entry : ℕ × List Char) : ParseState :=
  match parseDateHeading entry.2 with
  | some heading =>
    let entries := (mget st.headings heading).getD []
    { st with activeDate := some heading,
              headings := mset st.headings heading (entries ++ [entry.1 + 1]) }
  | none =>
    match st.activeDate with
    | none => st
    | some activeDate =>
      { st with accs := extractChecklistTokens entry.2 activeDate
                          (extractInlineTokens entry.2 activeDate st.accs) }

def parseMarkdownHabits (file : TFile) (content : String) : ParsedFileData :=
  let lines := splitLines content.data
  let final := lines.enum.foldl parseLineStep ⟨[], [], none⟩
  { file := file,
    valuesByDateHabit := resolveAccumulators final.accs,
    headingLinesByDate := final.headings }

/-! ## Scanner (`scanner.ts`) -/

/-- The vault as far as the scanner reads it: the markdown file list and the
content returned by `vault.cachedRead`, keyed by path. -/
structure Vault where
  markdownFiles : List TFile
  content : String → String

structure RangeResolution where
  type : String
  startDate : String
  endDate : String
  dates : List String
deriving Repr, DecidableEq

structure ScanCandidate where
  file : TFile
  headingLine : ℕ
  habitsWithData : List String
deriving Repr, DecidableEq

structure AggregateBucket where
  numericSum : ℚ
  hasNumeric : Bool
  boolTrue : Bool
  boolFalse : Bool
deriving Repr, DecidableEq

structure ScanResult where
  dates : List String
  valuesByHabit : ValueMap
  habitsFound : List String
  candidatesByDate : List (String × List ScanCandidate)
  scannedFiles : List TFile
deriving Repr, DecidableEq

/-- The scanner's `cache : Map<string, CacheEntry>`. -/
abbrev Cache := List (String × (ℤ × ParsedFileData))

/-- `invalidatePath`: `this.cache.delete(path)`. -/
def invalidatePath (cache : Cache) (path : String) : Cache :=
  cache.filter (fun e => e.1 ≠ path)

/-- Result of `getParsedFile`, instrumented with whether the vault was read
and the content re-parsed (`true`) or the cached object returned (`false`). -/
structure GetParsedResult where
  parsed : ParsedFileData
  cache : Cache
  reparsed : Bool
deriving Repr

/-- `getParsedFile`. -/
def getParsedFile (vault : Vault) (cache : Cache) (file : TFile) : GetParsedResult :=
  match mget cache file.path with
  | some entry =>
    if entry.1 = file.mtime then ⟨entry.2, cache, false⟩
    else
      let parsed := parseMarkdownHabits file (vault.content file.path)
      ⟨parsed, mset cache file.path (file.mtime, parsed), true⟩
  | none =>
    let parsed := parseMarkdownHabits file (vault.content file.path)
    ⟨parsed, mset cache file.path (file.mtime, parsed), true⟩

/-- `getParentPath`. -/
def getParentPath (path : String) : String :=
  match path.data.reverse.dropWhile (fun c => c ≠ '/') with
  | [] => ""
  | _ :: before => String.mk before.reverse

/-- `path.split("/")`. -/
def splitOnSlashAux : List Char → List Char → List (List Char)
  | [], acc => [acc.reverse]
  | '/' :: rest, acc => acc.reverse :: splitOnSlashAux rest []
  | c :: rest, acc => splitOnSlashAux rest (c :: acc)

def splitOnSlash (cs : List Char) : List (List Char) := splitOnSlashAux cs []

/-- `shouldIgnoreFile`. -/
def shouldIgnoreFile (path : String) : Bool :=
  (splitOnSlash path.data).any (fun segment => segment.map Char.toLower = "templates".data)

/-- `getFilesForRange`. -/
def getFilesForRange (vault : Vault) (currentFile : TFile) (type : String) : List TFile :=
  if type = "week" then
    if shouldIgnoreFile currentFile.path then [] else [currentFile]
  else
    let allMarkdown := vault.markdownFiles.filter (fun f => ¬shouldIgnoreFile f.path)
    let dir := getParentPath currentFile.path
    if type = "month" then
      allMarkdown.filter (fun f => getParentPath f.path = dir)
    else
      allMarkdown.filter (fun f =>
        getParentPath f.path = dir ∨ List.isPrefixOf (dir ++ "/").data (getParentPath f.path).data)

/-- Intermediate state threaded through the `scan` file loop. -/
structure ScanState where
  cache : Cache
  aggregates : List (String × List (String × AggregateBucket))
  candidatesByDate : List (String × List ScanCandidate)
  habitsFound : List String

/-- The aggregation step of `scan` for one `(habit, value)` pair of an
in-range date of one parsed file. -/
def scanHabitStep (date : String)
    (p : List (String × List (String × AggregateBucket)) × List String)
    (h : String × ResolvedHabitValue) :
    List (String × List (String × AggregateBucket)) × List String :=
  let found := sadd p.2 h.1
  let byDate := (mget p.1 h.1).getD []
  let bucket := (mget byDate date).getD
    { numericSum := 0, hasNumeric := false, boolTrue := false, boolFalse := false }
  let bucket2 :=
    match h.2 with
    | ResolvedHabitValue.numeric v =>
      { bucket with hasNumeric := true, numericSum := bucket.numericSum + v }
    | ResolvedHabitValue.boolean b =>
      if b then { bucket with boolTrue := true } else { bucket with boolFalse := true }
  (mset p.1 h.1 (mset byDate date bucket2), found)

/-- The aggregation step of `scan` for one date entry of one parsed file:
skip out-of-range dates, fold the in-range ones. -/
def scanDateStep (dates : List String)
    (p : List (String × List (String × AggregateBucket)) × List String)
    (entry : String × List (String × ResolvedHabitValue)) :
    List (String × List (String × AggregateBucket)) × List String :=
  if dates.contains entry.1 then entry.2.foldl (scanHabitStep entry.1) p else p

/-- The body of the `scan` loop for one file. -/
def scanFileStep (vault : Vault) (dates : List String) (st : ScanState) (file : TFile) :
    ScanState :=
  let r := getParsedFile vault st.cache file
  let parsed := r.parsed
  let cands :=
    parsed.headingLinesByDate.foldl
      (fun c entry =>
        if dates.contains entry.1 then
          let dateValues := mget parsed.valuesByDateHabit entry.1
          let habits := (dateValues.getD []).map Prod.fst
          let line := entry.2.head?.getD 1
          mset c entry.1
            ((mget c entry.1).getD [] ++ [⟨file, line, habits⟩])
        else c)
      st.candidatesByDate
  let af := parsed.valuesByDateHabit.foldl (scanDateStep dates) (st.aggregates, st.habitsFound)
  ⟨r.cache, af.1, cands, af.2⟩

/-- Finalisation of the aggregate buckets into `valuesByHabit`. -/
def finalizeAggregates (aggregates : List (String × List (String × AggregateBucket))) :
    ValueMap :=
  aggregates.foldl
    (fun out entry =>
      let resolvedByDate :=
        entry.2.foldl
          (fun r h =>
            if h.2.hasNumeric then mset r h.1 (ResolvedHabitValue.numeric h.2.numericSum)
            else if h.2.boolTrue then mset r h.1 (ResolvedHabitValue.boolean true)
            else if h.2.boolFalse then mset r h.1 (ResolvedHabitValue.boolean false)
            else r)
          []
      mset out entry.1 resolvedByDate)
    []

/-- `scan`, returning the result together with the cache left behind. -/
def scan (vault : Vault) (cache : Cache) (currentFile : TFile) (range : RangeResolution) :
    ScanResult × Cache :=
  let files := getFilesForRange vault currentFile range.type
  let stF := files.foldl (scanFileStep vault range.dates) ⟨cache, [], [], []⟩
  ({ dates := range.dates,
     valuesByHabit := finalizeAggregates stF.aggregates,
     habitsFound := stF.habitsFound,
     candidatesByDate := stF.candidatesByDate,
     scannedFiles := files },
   stF.cache)

/-! ## Configuration model (`types.ts` + renderer module) -/

/-- Normalized numeric threshold.  `kind` is the literal `"le"` / `"gt"` tag. -/
structure NumericThreshold where
  kind : String
  value : JsNumber
  color : String
deriving Repr, DecidableEq

/-- `NormalizedConfig.range`.  `fromTitle` is always defaulted to `true` by
normalization, hence plain `Bool` here. -/
structure NormalizedRange where
  type : String
  year : Option JsNumber
  month : Option JsNumber
  fromTitle : Bool
deriving Repr, DecidableEq

/-- The `colors.boolean` record; source field names are `true` / `false`. -/
structure BooleanColors where
  trueColor : String
  falseColor : String
deriving Repr, DecidableEq

structure NormalizedColors where
  noData : String
  blankFuture : String
  boolean : BooleanColors
  thresholds : List NumericThreshold
deriving Repr, DecidableEq

structure NormalizedHabits where
  mode : String
  list : List String
deriving Repr, DecidableEq

structure NormalizedDisplay where
  title : String
  showLegend : Bool
  cellSize : ℚ
  gap : ℚ
  weekStart : String
deriving Repr, DecidableEq

structure NormalizedConfig where
  range : NormalizedRange
  habits : NormalizedHabits
  colors : NormalizedColors
  display : NormalizedDisplay
deriving Repr, DecidableEq

/-- A raw `colors.numeric.thresholds` entry as seen at runtime: either not an
object (or `null`), or an object whose `color` is a string or not
(missing and non-string collapse: both fail the `typeof` check) and whose
`le` / `gt` fields carry a `typeof`-number (possibly `NaN`) or not. -/
inductive RawThreshold where
  | notObject : RawThreshold
  | entry : Option String → Option JsNumber → Option JsNumber → RawThreshold
deriving Repr, DecidableEq

/-- Raw `range` block.  A runtime non-boolean `fromTitle` behaves exactly like
`some false` (everything other than `true` is rejected), so `Option Bool`
is an adequate value space. -/
structure RawRange where
  type : Option String := none
  year : Option JsNumber := none
  month : Option JsNumber := none
  fromTitle : Option Bool := none
deriving Repr, DecidableEq

structure RawHabits where
  mode : Option String := none
  list : Option (List String) := none
deriving Repr, DecidableEq

/-- Raw `colors` block, with the optional nesting flattened: a missing
intermediate object and a missing leaf are indistinguishable through the
`?.`/`??` chains of `normalizeConfig`. -/
structure RawColors where
  noData : Option String := none
  blankFuture : Option String := none
  booleanTrue : Option String := none
  booleanFalse : Option String := none
  thresholds : Option (List RawThreshold) := none
deriving Repr, DecidableEq

structure RawDisplay where
  title : Option String := none
  showLegend : Option Bool := none
  cellSize : Option JsNumber := none
  gap : Option JsNumber := none
  weekStart : Option String := none
deriving Repr, DecidableEq

structure HeatmapBlockConfig where
  range : RawRange := {}
  habits : RawHabits := {}
  colors : RawColors := {}
  display : RawDisplay := {}
deriving Repr, DecidableEq

/-- `DEFAULT_CONFIG.colors.numeric.thresholds`. -/
def defaultThresholds : List NumericThreshold :=
  [⟨"le", JsNumber.num 0, "#111827"⟩,
   ⟨"le", JsNumber.num 10, "#1f2937"⟩,
   ⟨"le", JsNumber.num 25, "#374151"⟩,
   ⟨"le", JsNumber.num 50, "#4b5563"⟩,
   ⟨"gt", JsNumber.num 50, "#6b7280"⟩]

/-- `DEFAULT_CONFIG`. -/
def DEFAULT_CONFIG : NormalizedConfig :=
  { range := ⟨"week", none, none, true⟩,
    habits := ⟨"auto", []⟩,
    colors := ⟨"#2b2b2b", "transparent", ⟨"#22c55e", "#ef4444"⟩, defaultThresholds⟩,
    display := ⟨"", true, 12, 2, "Monday"⟩ }

/-! ## Config normalization (renderer module) -/

/-- `clampNumber`: `undefined`/non-number and `NaN` fall back; a number is
rounded with `Math.round` and clamped by `Math.min`/`Math.max`. -/
def clampNumber (value : Option JsNumber) (min max fallback : ℚ) : ℚ :=
  match value with
  | none => fallback
  | some JsNumber.nan => fallback
  | some (JsNumber.num q) => jsMin max (jsMax min ((jsRound q : ℤ) : ℚ))

/-- `isLowerSnakeCase`: `/^[a-z0-9_]+$/`. -/
def isLowerSnakeCase (s : String) : Bool :=
  !s.data.isEmpty && s.data.all isNameChar

/-- `[...new Set(list)]`: deduplicate keeping first occurrences. -/
def dedupList (l : List String) : List String := l.foldl sadd []

/-- The body of the `normalizeThresholds` loop for one entry. -/
def thresholdStep (out : List NumericThreshold) (entry : RawThreshold) :
    List NumericThreshold :=
  match entry with
  | RawThreshold.notObject => out
  | RawThreshold.entry color le gt =>
    match color with
    | none => out
    | some c =>
      if (jsTrim c.data).length = 0 then out
      else
        match le with
        | some v => out ++ [⟨"le", v, c⟩]
        | none =>
          match gt with
          | some v => out ++ [⟨"gt", v, c⟩]
          | none => out

/-- `normalizeThresholds`, threading the caller's `errors` array. -/
def normalizeThresholds (input : List RawThreshold) (errors : List String) :
    List NumericThreshold × List String :=
  let output := input.foldl thresholdStep []
  if output = [] then
    (defaultThresholds,
     errors ++ ["colors.numeric.thresholds must include at least one valid threshold"])
  else (output, errors)

inductive NormalizeResult where
  | ok : NormalizedConfig → NormalizeResult
  | err : List String → NormalizeResult
deriving Repr, DecidableEq

/-- `normalizeConfig`. -/
def normalizeConfig (input : HeatmapBlockConfig) : NormalizeResult :=
  let thresholdsInput := input.colors.thresholds.getD []
  let tr :=
    if 0 < thresholdsInput.length then normalizeThresholds thresholdsInput []
    else (DEFAULT_CONFIG.colors.thresholds, [])
  let errors := tr.2
  let list := ((input.habits.list.getD []).map
      (fun habit => String.mk (jsTrim habit.data))).filter (fun habit => 0 < habit.length)
  let invalidListHabits := list.filter (fun habit => ¬isLowerSnakeCase habit)
  let mode := input.habits.mode.getD DEFAULT_CONFIG.habits.mode
  let errors :=
    if mode ≠ "auto" ∧ mode ≠ "list" then errors ++ ["habits.mode must be auto or list"]
    else errors
  let errors :=
    if mode = "list" ∧ list.length = 0 then
      errors ++ ["habits.list must include at least one habit when habits.mode=list"]
    else errors
  let errors :=
    if 0 < invalidListHabits.length then
      errors ++ ["habits.list contains invalid names (use lower_snake_case): "
        ++ String.intercalate ", " invalidListHabits]
    else errors
  let config : NormalizedConfig :=
    { range :=
        { type := input.range.type.getD DEFAULT_CONFIG.range.type,
          year := input.range.year,
          month := input.range.month,
          fromTitle := input.range.fromTitle.getD DEFAULT_CONFIG.range.fromTitle },
      habits :=
        { mode := if mode = "list" then "list" else "auto",
          list := dedupList list },
      colors :=
        { noData := input.colors.noData.getD DEFAULT_CONFIG.colors.noData,
          blankFuture := input.colors.blankFuture.getD DEFAULT_CONFIG.colors.blankFuture,
          boolean :=
            { trueColor := input.colors.booleanTrue.getD DEFAULT_CONFIG.colors.boolean.trueColor,
              falseColor := input.colors.booleanFalse.getD DEFAULT_CONFIG.colors.boolean.falseColor },
          thresholds := tr.1 },
      display :=
        { title := input.display.title.getD DEFAULT_CONFIG.display.title,
          showLegend := input.display.showLegend.getD DEFAULT_CONFIG.display.showLegend,
          cellSize := clampNumber input.display.cellSize 6 30 DEFAULT_CONFIG.display.cellSize,
          gap := clampNumber input.display.gap 0 8 DEFAULT_CONFIG.display.gap,
          weekStart := if input.display.weekStart = some "Sunday" then "Sunday" else "Monday" } }
  let errors :=
    if config.range.type ≠ "week" ∧ config.range.type ≠ "month" ∧ config.range.type ≠ "year" then
      errors ++ ["range.type must be week, month, or year"]
    else errors
  if errors ≠ [] then NormalizeResult.err errors else NormalizeResult.ok config

/-! ## Range resolution (renderer module) -/

inductive RangeResult where
  | ok : RangeResolution → RangeResult
  | err : List String → RangeResult
deriving Repr, DecidableEq

/-- `isValidYear`: `Number.isInteger(year) && 1970 <= year <= 9999`. -/
def isValidYear (year : Option JsNumber) : Bool :=
  match year with
  | some (JsNumber.num q) => q.den = 1 && 1970 ≤ q && q ≤ 9999
  | _ => false

/-- The month guard of the month branch:
`Number.isInteger(month) && month != null && 1 <= month <= 12`. -/
def isValidMonth (month : Option JsNumber) : Bool :=
  match month with
  | some (JsNumber.num q) => q.den = 1 && 1 ≤ q && q ≤ 12
  | _ => false

/-- Integer value of an integral JS number (only applied after an
`isValidYear`/`isValidMonth` check has succeeded). -/
def jsNumToInt (n : Option JsNumber) : ℤ :=
  match n with
  | some (JsNumber.num q) => q.num
  | _ => 0

/-- Consume `\d{4}\.\d{2}\.\d{2}` at the head, returning the matched
characters and the remainder. -/
def takeDotDate : List Char → Option (List Char × List Char)
  | y1 :: y2 :: y3 :: y4 :: p1 :: m1 :: m2 :: p2 :: d1 :: d2 :: rest =>
    if ([y1, y2, y3, y4, m1, m2, d1, d2].all jsIsDigit
        && (p1 = '.' : Bool) && (p2 = '.' : Bool)) = true then
      some ([y1, y2, y3, y4, '.', m1, m2, '.', d1, d2], rest)
    else none
  | _ => none

/-- Match of `/^\s*(\d{4}\.\d{2}\.\d{2})\s*-\s*(\d{4}\.\d{2}\.\d{2})\s*$/`
against the whole basename, returning the two captures. -/
def matchWeekTitle (cs : List Char) : Option (List Char × List Char) :=
  match takeDotDate (cs.dropWhile jsIsSpace) with
  | none => none
  | some (date1, r2) =>
    match r2.dropWhile jsIsSpace with
    | '-' :: r4 =>
      match takeDotDate (r4.dropWhile jsIsSpace) with
      | none => none
      | some (date2, r6) => if r6.all jsIsSpace then some (date1, date2) else none
    | _ => none

/-- `resolveRange`. -/
def resolveRange (config : NormalizedConfig) (file : TFile) : RangeResult :=
  if config.range.type = "week" then
    if config.range.fromTitle ≠ true then
      RangeResult.err ["week range requires range.fromTitle=true"]
    else
      match matchWeekTitle file.basename.data with
      | none => RangeResult.err ["week note title must match YYYY.MM.dd - YYYY.MM.dd"]
      | some (t1, t2) =>
        match normalizeIsoDate (String.mk (headingToIso t1)),
              normalizeIsoDate (String.mk (headingToIso t2)) with
        | some startIso, some endIso =>
          let dates := enumerateDates startIso endIso
          if dates.length ≠ 7 then
            RangeResult.err
              ["week range must include exactly 7 dates, found " ++ toString dates.length]
          else RangeResult.ok ⟨"week", startIso, endIso, dates⟩
        | _, _ => RangeResult.err ["week note title contains invalid date"]
  else if config.range.type = "month" then
    let errors :=
      (if isValidYear config.range.year then [] else ["month range requires range.year"]) ++
      (if isValidMonth config.range.month then [] else ["month range requires range.month (1-12)"])
    if errors ≠ [] then RangeResult.err errors
    else
      let year := jsNumToInt config.range.year
      let month := jsNumToInt config.range.month
      let startIso := toString year ++ "-" ++ pad2 (toString month) ++ "-01"
      let endIso := toIsoDate (jsMakeDate year month 0)
      RangeResult.ok ⟨"month", startIso, endIso, enumerateDates startIso endIso⟩
  else
    if ¬isValidYear config.range.year then
      RangeResult.err ["year range requires range.year"]
    else
      let year := jsNumToInt config.range.year
      let startIso := toString year ++ "-01-01"
      let endIso := toString year ++ "-12-31"
      RangeResult.ok ⟨"year", startIso, endIso, enumerateDates startIso endIso⟩

/-! ## Appearance resolution (renderer module) -/

/-- Cell tooltip contents.  The numeric case carries the exact value instead
of the JS number-to-string rendering. -/
inductive Tooltip where
  | text : String → Tooltip
  | num : ℚ → Tooltip
deriving Repr, DecidableEq

structure Appearance where
  color : String
  tooltip : Tooltip
  kind : String
deriving Repr, DecidableEq

/-- `value <= threshold.value` over JS numbers (false against `NaN`). -/
def jsLeNum (v : ℚ) (b : JsNumber) : Bool :=
  match b with
  | JsNumber.nan => false
  | JsNumber.num q => v ≤ q

/-- `value > threshold.value` over JS numbers (false against `NaN`). -/
def jsGtNum (v : ℚ) (b : JsNumber) : Bool :=
  match b with
  | JsNumber.nan => false
  | JsNumber.num q => q < v

/-- Whether one loop iteration of `resolveNumericColor` returns. -/
def thresholdMatches (t : NumericThreshold) (v : ℚ) : Bool :=
  if t.kind = "le" then jsLeNum v t.value
  else if t.kind = "gt" then jsGtNum v t.value
  else false

def resolveNumericColorLoop : List NumericThreshold → ℚ → Option String
  | [], _ => none
  | t :: ts, v => if thresholdMatches t v then some t.color else resolveNumericColorLoop ts v

/-- `resolveNumericColor`: first-match walk, then
`thresholds[thresholds.length - 1]?.color ?? "#6b7280"`. -/
def resolveNumericColor (thresholds : List NumericThreshold) (v : ℚ) : String :=
  match resolveNumericColorLoop thresholds v with
  | some c => c
  | none => ((thresholds.getLast?).map NumericThreshold.color).getD "#6b7280"

/-- `resolveAppearance`.  `today` is the value of `todayIsoDate()` (the
wall clock), passed explicitly. -/
def resolveAppearance (config : NormalizedConfig) (today : String) (date : String)
    (value : Option ResolvedHabitValue) : Appearance :=
  match value with
  | none =>
    if jsStrGe date today then
      ⟨config.colors.blankFuture, Tooltip.text "blank (today/future missing)", "blank"⟩
    else ⟨config.colors.noData, Tooltip.text "no data", "data"⟩
  | some (ResolvedHabitValue.boolean b) =>
    ⟨if b then config.colors.boolean.trueColor else config.colors.boolean.falseColor,
     Tooltip.text (if b then "true" else "false"), "data"⟩
  | some (ResolvedHabitValue.numeric v) =>
    ⟨resolveNumericColor config.colors.thresholds v, Tooltip.num v, "data"⟩

/-! ## Statement-support definitions -/

/-- Two-level map lookup. -/
def mget2 {β : Type} (m : List (String × List (String × β))) (k1 k2 : String) : Option β :=
  (mget m k1).bind (fun inner => mget inner k2)

/-- The keys of an association-list map are pairwise distinct (always true of
a map image of a JS `Map`). -/
def KeysNodup {β : Type} (m : List (String × β)) : Prop :=
  (m.map Prod.fst).Nodup

/-- The `(date, habit)` accumulator as `getAccumulator` would observe it
(absent entries read as a fresh accumulator). -/
def bucketOf (accs : AccMap) (date habit : String) : DateAccumulator :=
  (mget2 accs date habit).getD freshAccumulator

/-- The (trimmed) habit capture of an inline match. -/
def trimmedHabit (m : InlineMatch) : String := String.mk (jsTrim m.habit)

/-- The trimmed, lower-cased value capture of an inline match. -/
def trimmedValue (m : InlineMatch) : String := String.mk ((jsTrim m.rawValue).map Char.toLower)

def isTrueToken (m : InlineMatch) : Bool :=
  trimmedValue m = "true" || trimmedValue m = "yes"

def isFalseToken (m : InlineMatch) : Bool :=
  trimmedValue m = "false" || trimmedValue m = "no"

/-- The summand a token contributes to the numeric accumulator, if any. -/
def numericTokenValue (m : InlineMatch) : Option ℚ :=
  if isTrueToken m || isFalseToken m then none else jsNumberFinite (trimmedValue m)

/-- The inline tokens of a line whose (trimmed) habit capture is `habit`. -/
def inlineTokensFor (line : List Char) (habit : String) : List InlineMatch :=
  (findInlineMatches line).filter (fun m => trimmedHabit m = habit)

/-- The effect of one inline token on its `(date, habit)` accumulator. -/
def inlineEffect (m : InlineMatch) (acc : DateAccumulator) : DateAccumulator :=
  if isTrueToken m then { acc with inlineTrue := true }
  else if isFalseToken m then { acc with inlineFalse := true }
  else
    match numericTokenValue m with
    | some q => { acc with hasNumeric := true, numericSum := acc.numericSum + q }
    | none => acc

def isOk : NormalizeResult → Bool
  | NormalizeResult.ok _ => true
  | NormalizeResult.err _ => false

/-- The cell size a normalization outcome carries (0 on error). -/
def cellSizeOf : NormalizeResult → ℚ
  | NormalizeResult.ok c => c.display.cellSize
  | NormalizeResult.err _ => 0

/-- The gap a normalization outcome carries (0 on error). -/
def gapOf : NormalizeResult → ℚ
  | NormalizeResult.ok c => c.display.gap
  | NormalizeResult.err _ => 0

/-- The value map a fresh parse of `file` through the vault yields. -/
def parsedValuesOf (vault : Vault) (file : TFile) : ValueMap :=
  (parseMarkdownHabits file (vault.content file.path)).valuesByDateHabit

/-- Every cache entry's value map agrees with a fresh parse of the content the
vault currently returns for its path (the state `scan` itself always leaves
behind; only the `file` metadata and the mtime token may be stale). -/
def CacheCoherent (vault : Vault) (cache : Cache) : Prop :=
  ∀ path e, mget cache path = some e →
    e.2.valuesByDateHabit = (parseMarkdownHabits e.2.file (vault.content path)).valuesByDateHabit

/-- Modelled from the amended claim wording for threshold normalization: an
entry is kept iff it is an object carrying a string `color` that is non-empty
after trimming and at least one `typeof`-number bound, `le` taking precedence
over `gt` when both are present. -/
def thresholdKeepSpec : RawThreshold → Option NumericThreshold
  | RawThreshold.notObject => none
  | RawThreshold.entry color le gt =>
    match color with
    | none => none
    | some c =>
      if (jsTrim c.data).length = 0 then none
      else
        match le, gt with
        | some v, _ => some ⟨"le", v, c⟩
        | none, some v => some ⟨"gt", v, c⟩
        | none, none => none

/-- The number of enumerated dates a range resolution carries (0 on error). -/
def rangeDatesLength : RangeResult → ℕ
  | RangeResult.ok r => r.dates.length
  | RangeResult.err _ => 0

/-- The resolved value one habit's accumulator contributes, if any (the
branch structure of the inner `resolveAccumulators` loop). -/
def resolveEntry (h : String × DateAccumulator) : Option (String × ResolvedHabitValue) :=
  if h.2.hasNumeric then some (h.1, ResolvedHabitValue.numeric h.2.numericSum)
  else (resolveBoolean h.2).map (fun b => (h.1, ResolvedHabitValue.boolean b))

/-- The per-date map `resolveAccumulators` emits, if non-empty. -/
def resolveDateEntry (entry : String × List (String × DateAccumulator)) :
    Option (String × List (String × ResolvedHabitValue)) :=
  let resolved := entry.2.filterMap resolveEntry
  if resolved = [] then none else some (entry.1, resolved)

/-- Decimal digit characters of a natural number, most significant first
(proof auxiliary used to characterise `Nat.repr`). -/
def decChars (n : ℕ) : List Char :=
  if h : n < 10 then [Nat.digitChar n]
  else decChars (n / 10) ++ [Nat.digitChar (n % 10)]
decreasing_by exact Nat.div_lt_self (by omega) (by omega)

/-! ## Lemmas about the map and set models -/

theorem mget_mset_self {β : Type} (m : List (String × β)) (k : String) (v : β) :
    mget (mset m k v) k = some v := by
  induction m with
  | nil => simp [mset, mget]
  | cons e rest ih =>
    obtain ⟨k', v'⟩ := e
    by_cases h : k' = k <;> simp [mset, mget, h, ih]

theorem mget_mset_ne {β : Type} (m : List (String × β)) (k k' : String) (v : β)
    (h : k ≠ k') : mget (mset m k v) k' = mget m k' := by
  induction m with
  | nil => simp [mset, mget, h]
  | cons e rest ih =>
    obtain ⟨k0, v0⟩ := e
    by_cases h0 : k0 = k
    · subst h0
      simp [mset, mget, h]
    · simp only [mset, if_neg h0]
      by_cases h1 : k0 = k' <;> simp [mget, h1, ih]

theorem mset_eq_append {β : Type} (m : List (String × β)) (k : String) (v : β)
    (h : mget m k = none) : mset m k v = m ++ [(k, v)] := by
  induction m with
  | nil => simp [mset]
  | cons e rest ih =>
    obtain ⟨k0, v0⟩ := e
    by_cases h0 : k0 = k
    · simp [mget, h0] at h
    · simp only [mget, if_neg h0] at h
      simp [mset, h0, ih h]

theorem mget_append {β : Type} (l1 l2 : List (String × β)) (k : String) :
    mget (l1 ++ l2) k =
      match mget l1 k with
      | some v => some v
      | none => mget l2 k := by
  induction l1 with
  | nil => simp [mget]
  | cons e rest ih =>
    obtain ⟨k0, v0⟩ := e
    by_cases h0 : k0 = k <;> simp [mget, h0, ih]

theorem mget_eq_none_of_not_mem {β : Type} (m : List (String × β)) (k : String)
    (h : k ∉ m.map Prod.fst) : mget m k = none := by
  induction m with
  | nil => simp [mget]
  | cons e rest ih =>
    simp only [List.map_cons, List.mem_cons] at h
    push_neg at h
    have hne : e.1 ≠ k := fun hh => h.1 hh.symm
    simp [mget, hne, ih h.2]

theorem mem_of_mget_eq_some {β : Type} (m : List (String × β)) (k : String) (v : β)
    (h : mget m k = some v) : (k, v) ∈ m := by
  induction m with
  | nil => simp [mget] at h
  | cons e rest ih =>
    obtain ⟨k0, v0⟩ := e
    by_cases h0 : k0 = k
    · subst h0
      simp [mget] at h
      simp [h]
    · simp only [mget, if_neg h0] at h
      simp [ih h]

theorem mem_sadd_self (s : List String) (x : String) : x ∈ sadd s x := by
  by_cases h : x ∈ s <;> simp [sadd, h]

theorem mem_sadd_of_mem (s : List String) (x y : String) (h : x ∈ s) : x ∈ sadd s y := by
  by_cases h0 : y ∈ s <;> simp [sadd, h0, h]

theorem mget_invalidatePath_self (cache : Cache) (path : String) :
    mget (invalidatePath cache path) path = none := by
  induction cache with
  | nil => simp [invalidatePath, mget]
  | cons e rest ih =>
    by_cases h : e.1 = path
    · simpa [invalidatePath, h] using ih
    · simpa [invalidatePath, h, mget] using ih

/-! ## Characterisation of `Nat.repr` by decimal digits -/

theorem toDigitsCore_eq_decChars (fuel : ℕ) :
    ∀ n ds, n < fuel → Nat.toDigitsCore 10 fuel n ds = decChars n ++ ds := by
  induction fuel with
  | zero => intro n ds h; omega
  | succ fuel ih =>
    intro n ds h
    by_cases h10 : n < 10
    · have hdiv : n / 10 = 0 := Nat.div_eq_of_lt h10
      have hmod : n % 10 = n := Nat.mod_eq_of_lt h10
      simp [Nat.toDigitsCore, hdiv, hmod, decChars, h10]
    · have hdiv : n / 10 ≠ 0 := by omega
      have hd : n / 10 < n := Nat.div_lt_self (by omega) (by decide)
      have hlt : n / 10 < fuel := by omega
      rw [show Nat.toDigitsCore 10 (fuel + 1) n ds
            = Nat.toDigitsCore 10 fuel (n / 10) (Nat.digitChar (n % 10) :: ds) by
          simp [Nat.toDigitsCore, hdiv]]
      rw [ih (n / 10) (Nat.digitChar (n % 10) :: ds) hlt]
      conv_rhs => rw [decChars]
      simp [h10]

theorem repr_eq_decChars (n : ℕ) : Nat.repr n = String.mk (decChars n) := by
  have h := toDigitsCore_eq_decChars (n + 1) n [] (by omega)
  simp only [List.append_nil] at h
  show (Nat.toDigitsCore 10 (n + 1) n []).asString = String.mk (decChars n)
  rw [h]
  rfl

theorem char_eq_of_toNat_eq (a b : Char) (h : a.toNat = b.toNat) : a = b := by
  apply Char.ext
  apply UInt32.ext
  exact h

theorem digitChar_toNat (k : ℕ) (h : k ≤ 9) : (Nat.digitChar k).toNat = 48 + k := by
  interval_cases k <;> rfl

theorem digitChar_digitVal (c : Char) (h : jsIsDigit c = true) :
    Nat.digitChar (digitVal c) = c := by
  simp only [jsIsDigit, Bool.and_eq_true, decide_eq_true_eq] at h
  apply char_eq_of_toNat_eq
  rw [digitChar_toNat (digitVal c) (by simp only [digitVal]; omega)]
  simp only [digitVal]
  omega

theorem digitVal_le_nine (c : Char) (h : jsIsDigit c = true) : digitVal c ≤ 9 := by
  simp only [jsIsDigit, Bool.and_eq_true, decide_eq_true_eq] at h
  simp only [digitVal]
  omega

theorem decChars_four (a b c d : ℕ) (ha : 1 ≤ a) (ha9 : a ≤ 9) (hb : b ≤ 9)
    (hc : c ≤ 9) (hd : d ≤ 9) :
    decChars (((a * 10 + b) * 10 + c) * 10 + d) =
      [Nat.digitChar a, Nat.digitChar b, Nat.digitChar c, Nat.digitChar d] := by
  have h1 : ¬(((a * 10 + b) * 10 + c) * 10 + d < 10) := by omega
  have h2 : ¬((a * 10 + b) * 10 + c < 10) := by omega
  have h3 : ¬(a * 10 + b < 10) := by omega
  have h4 : a < 10 := by omega
  rw [decChars]
  rw [dif_neg h1, show (((a * 10 + b) * 10 + c) * 10 + d) / 10 = (a * 10 + b) * 10 + c by omega,
      show (((a * 10 + b) * 10 + c) * 10 + d) % 10 = d by omega]
  rw [decChars]
  rw [dif_neg h2, show ((a * 10 + b) * 10 + c) / 10 = a * 10 + b by omega,
      show ((a * 10 + b) * 10 + c) % 10 = c by omega]
  rw [decChars]
  rw [dif_neg h3, show (a * 10 + b) / 10 = a by omega, show (a * 10 + b) % 10 = b by omega]
  rw [decChars]
  rw [dif_pos h4]
  simp

theorem decChars_two (a b : ℕ) (ha : 1 ≤ a) (ha9 : a ≤ 9) (hb : b ≤ 9) :
    decChars (a * 10 + b) = [Nat.digitChar a, Nat.digitChar b] := by
  have h3 : ¬(a * 10 + b < 10) := by omega
  have h4 : a < 10 := by omega
  rw [decChars]
  rw [dif_neg h3, show (a * 10 + b) / 10 = a by omega, show (a * 10 + b) % 10 = b by omega]
  rw [decChars]
  rw [dif_pos h4]
  simp

theorem decChars_one (a : ℕ) (ha : a ≤ 9) : decChars a = [Nat.digitChar a] := by
  rw [decChars]
  rw [dif_pos (by omega)]

/-- `pad2` of the decimal rendering of a two-digit value reproduces its
digit characters. -/
theorem pad2_repr (a b : ℕ) (ha : a ≤ 9) (hb : b ≤ 9) :
    pad2 (Nat.repr (a * 10 + b)) = String.mk [Nat.digitChar a, Nat.digitChar b] := by
  by_cases h0 : a = 0
  · subst h0
    rw [repr_eq_decChars, show (0 * 10 + b) = b by omega, decChars_one b hb]
    show pad2 (String.mk [Nat.digitChar b]) = String.mk [Nat.digitChar 0, Nat.digitChar b]
    simp [pad2, String.length]
    rfl
  · rw [repr_eq_decChars, decChars_two a b (by omega) ha hb]
    simp [pad2, String.length]

/-! ## Threshold ladder lemmas -/

theorem resolveNumericColorLoop_none (ts : List NumericThreshold) (v : ℚ)
    (h : ∀ t ∈ ts, thresholdMatches t v = false) :
    resolveNumericColorLoop ts v = none := by
  induction ts with
  | nil => rfl
  | cons t rest ih =>
    simp only [resolveNumericColorLoop, h t (by simp), Bool.false_eq_true, if_false]
    exact ih (fun t' ht' => h t' (by simp [ht']))

theorem resolveNumericColorLoop_first (pre : List NumericThreshold) (t : NumericThreshold)
    (suf : List NumericThreshold) (v : ℚ)
    (hpre : ∀ t' ∈ pre, thresholdMatches t' v = false)
    (ht : thresholdMatches t v = true) :
    resolveNumericColorLoop (pre ++ t :: suf) v = some t.color := by
  induction pre with
  | nil => simp [resolveNumericColorLoop, ht]
  | cons p rest ih =>
    simp only [List.cons_append, resolveNumericColorLoop, hpre p (by simp),
      Bool.false_eq_true, if_false]
    exact ih (fun t' ht' => hpre t' (by simp [ht']))

/-- C8: `resolveAppearance(config, date, value)` classifies an absent value by
the string comparison `date >= today` into blank-future versus no-data, maps a
boolean value to the configured true/false colors with tooltip "true"/"false",
and maps a numeric value to the color of the first threshold whose comparator
matches (`value ≤ bound` for le, `value > bound` for gt), falling back to the
last threshold's color when none matches, with the literal number as tooltip. -/
theorem claim_C8 (config : NormalizedConfig) (today date : String) :
    (jsStrGe date today = true →
      resolveAppearance config today date none =
        ⟨config.colors.blankFuture, Tooltip.text "blank (today/future missing)", "blank"⟩) ∧
    (jsStrGe date today = false →
      resolveAppearance config today date none =
        ⟨config.colors.noData, Tooltip.text "no data", "data"⟩) ∧
    (∀ b : Bool,
      resolveAppearance config today date (some (ResolvedHabitValue.boolean b)) =
        ⟨if b then config.colors.boolean.trueColor else config.colors.boolean.falseColor,
         Tooltip.text (if b then "true" else "false"), "data"⟩) ∧
    (∀ v : ℚ,
      resolveAppearance config today date (some (ResolvedHabitValue.numeric v)) =
        ⟨resolveNumericColor config.colors.thresholds v, Tooltip.num v, "data"⟩) ∧
    (∀ (v : ℚ) (pre : List NumericThreshold) (t : NumericThreshold)
        (suf : List NumericThreshold),
      config.colors.thresholds = pre ++ t :: suf →
      (∀ t' ∈ pre, thresholdMatches t' v = false) →
      thresholdMatches t v = true →
      resolveNumericColor config.colors.thresholds v = t.color) ∧
    (∀ (v : ℚ) (hne : config.colors.thresholds ≠ []),
      (∀ t ∈ config.colors.thresholds, thresholdMatches t v = false) →
      resolveNumericColor config.colors.thresholds v =
        (config.colors.thresholds.getLast hne).color) := by
  refine ⟨?_, ?_, ?_, ?_, ?_, ?_⟩
  · intro h
    simp [resolveAppearance, h]
  · intro h
    simp [resolveAppearance, h]
  · intro b
    simp [resolveAppearance]
  · intro v
    simp [resolveAppearance]
  · intro v pre t suf hsplit hpre ht
    rw [resolveNumericColor, hsplit, resolveNumericColorLoop_first pre t suf v hpre ht]
  · intro v hne hall
    rw [resolveNumericColor, resolveNumericColorLoop_none _ v hall,
      List.getLast?_eq_getLast _ hne]
    rfl

/-- Witness for C8 at a concrete configuration, date and value. -/
theorem claim_C8_witness :
    resolveAppearance DEFAULT_CONFIG "2026-02-10" "2026-02-09" none =
      ⟨"#2b2b2b", Tooltip.text "no data", "data"⟩ ∧
    resolveNumericColor DEFAULT_CONFIG.colors.thresholds 51 = "#6b7280" := by
  constructor
  · exact (claim_C8 DEFAULT_CONFIG "2026-02-10" "2026-02-09").2.1 (by decide)
  · exact (claim_C8 DEFAULT_CONFIG "x" "x").2.2.2.2.1 51
      [⟨"le", JsNumber.num 0, "#111827"⟩, ⟨"le", JsNumber.num 10, "#1f2937"⟩,
       ⟨"le", JsNumber.num 25, "#374151"⟩, ⟨"le", JsNumber.num 50, "#4b5563"⟩]
      ⟨"gt", JsNumber.num 50, "#6b7280"⟩ [] (by decide) (by decide) (by decide)

/-- C6: for a week range, `resolveRange` fails unless `fromTitle = true`;
given that, fails unless the title matches `YYYY.MM.dd - YYYY.MM.dd`; given a
match, fails unless both dates are calendar-valid; given valid dates, fails
unless the inclusive enumeration has exactly 7 dates, reporting the count
actually found; and succeeds otherwise. -/
theorem claim_C6 (config : NormalizedConfig) (file : TFile)
    (hweek : config.range.type = "week") :
    (config.range.fromTitle = false →
      resolveRange config file = RangeResult.err ["week range requires range.fromTitle=true"]) ∧
    (config.range.fromTitle = true → matchWeekTitle file.basename.data = none →
      resolveRange config file =
        RangeResult.err ["week note title must match YYYY.MM.dd - YYYY.MM.dd"]) ∧
    (∀ t1 t2, config.range.fromTitle = true →
      matchWeekTitle file.basename.data = some (t1, t2) →
      (normalizeIsoDate (String.mk (headingToIso t1)) = none ∨
        normalizeIsoDate (String.mk (headingToIso t2)) = none) →
      resolveRange config file = RangeResult.err ["week note title contains invalid date"]) ∧
    (∀ t1 t2 s e, config.range.fromTitle = true →
      matchWeekTitle file.basename.data = some (t1, t2) →
      normalizeIsoDate (String.mk (headingToIso t1)) = some s →
      normalizeIsoDate (String.mk (headingToIso t2)) = some e →
      (enumerateDates s e).length ≠ 7 →
      resolveRange config file =
        RangeResult.err ["week range must include exactly 7 dates, found "
          ++ toString (enumerateDates s e).length]) ∧
    (∀ t1 t2 s e, config.range.fromTitle = true →
      matchWeekTitle file.basename.data = some (t1, t2) →
      normalizeIsoDate (String.mk (headingToIso t1)) = some s →
      normalizeIsoDate (String.mk (headingToIso t2)) = some e →
      (enumerateDates s e).length = 7 →
      resolveRange config file = RangeResult.ok ⟨"week", s, e, enumerateDates s e⟩) := by
  refine ⟨?_, ?_, ?_, ?_, ?_⟩
  · intro hft
    simp [resolveRange, hweek, hft]
  · intro hft hm
    simp [resolveRange, hweek, hft, hm]
  · intro t1 t2 hft hm hinv
    rcases hinv with h1 | h2
    · simp [resolveRange, hweek, hft, hm, h1]
    · cases h1 : normalizeIsoDate (String.mk (headingToIso t1)) <;>
        simp [resolveRange, hweek, hft, hm, h1, h2]
  · intro t1 t2 s e hft hm h1 h2 hlen
    simp [resolveRange, hweek, hft, hm, h1, h2, hlen]
  · intro t1 t2 s e hft hm h1 h2 hlen
    simp [resolveRange, hweek, hft, hm, h1, h2, hlen]

/-- Witness for C6: a title spanning 8 days is rejected with the count 8. -/
theorem claim_C6_witness :
    resolveRange DEFAULT_CONFIG ⟨"w.md", "2026.02.09 - 2026.02.16", 0⟩ =
      RangeResult.err ["week range must include exactly 7 dates, found 8"] := by
  have h := (claim_C6 DEFAULT_CONFIG ⟨"w.md", "2026.02.09 - 2026.02.16", 0⟩ rfl).2.2.2.1
    "2026.02.09".data "2026.02.16".data "2026-02-09" "2026-02-16"
    rfl (by decide) (by decide) (by decide) (by decide)
  have hmsg : "week range must include exactly 7 dates, found "
      ++ toString (enumerateDates "2026-02-09" "2026-02-16").length
      = "week range must include exactly 7 dates, found 8" := by decide
  rw [hmsg] at h
  exact h

/-- C9: the parse cache returns the stored object on a second call with an
unchanged mtime token (no re-read, no re-parse); an entry is reused iff the
file's current mtime equals the stored token; and after `invalidate(path)` or
on a token mismatch the next call re-reads, re-parses and stores afresh. -/
theorem claim_C9 (vault : Vault) (cache : Cache) (file : TFile) :
    ((getParsedFile vault (getParsedFile vault cache file).cache file).parsed =
        (getParsedFile vault cache file).parsed ∧
      (getParsedFile vault (getParsedFile vault cache file).cache file).cache =
        (getParsedFile vault cache file).cache ∧
      (getParsedFile vault (getParsedFile vault cache file).cache file).reparsed = false) ∧
    ((getParsedFile vault cache file).reparsed = false ↔
      ∃ parsed, mget cache file.path = some (file.mtime, parsed)) ∧
    (∀ (mt : ℤ) (parsed : ParsedFileData),
      mget cache file.path = some (mt, parsed) → mt = file.mtime →
      getParsedFile vault cache file = ⟨parsed, cache, false⟩) ∧
    (∀ (mt : ℤ) (parsed : ParsedFileData),
      mget cache file.path = some (mt, parsed) → mt ≠ file.mtime →
      getParsedFile vault cache file =
        ⟨parseMarkdownHabits file (vault.content file.path),
         mset cache file.path (file.mtime, parseMarkdownHabits file (vault.content file.path)),
         true⟩) ∧
    (getParsedFile vault (invalidatePath cache file.path) file =
      ⟨parseMarkdownHabits file (vault.content file.path),
       mset (invalidatePath cache file.path) file.path
         (file.mtime, parseMarkdownHabits file (vault.content file.path)),
       true⟩) := by
  refine ⟨?_, ?_, ?_, ?_, ?_⟩
  · cases hc : mget cache file.path with
    | some entry =>
      by_cases he : entry.1 = file.mtime
      · simp [getParsedFile, hc, he]
      · simp [getParsedFile, hc, he, mget_mset_self]
    | none => simp [getParsedFile, hc, mget_mset_self]
  · cases hc : mget cache file.path with
    | some entry =>
      by_cases he : entry.1 = file.mtime
      · simp only [getParsedFile, hc, he, if_pos rfl]
        constructor
        · intro _
          exact ⟨entry.2, by rw [← he]⟩
        · intro _
          rfl
      · simp only [getParsedFile, hc, if_neg he]
        constructor
        · intro hfalse
          simp at hfalse
        · rintro ⟨parsed, hp⟩
          injection hp with hp
          rw [hp] at he
          simp at he
    | none =>
      simp only [getParsedFile, hc]
      constructor
      · intro hfalse
        simp at hfalse
      · rintro ⟨parsed, hp⟩
        simp [hc] at hp
  · intro mt parsed hc he
    subst he
    simp [getParsedFile, hc]
  · intro mt parsed hc he
    simp [getParsedFile, hc, he]
  · simp [getParsedFile, mget_invalidatePath_self]

/-- Witness for C9: a stale token forces a fresh parse and store. -/
theorem claim_C9_witness :
    getParsedFile ⟨[], fun _ => "x"⟩
        [("a.md", (1, parseMarkdownHabits ⟨"a.md", "a", 1⟩ "y"))] ⟨"a.md", "a", 2⟩ =
      ⟨parseMarkdownHabits ⟨"a.md", "a", 2⟩ "x",
       mset [("a.md", (1, parseMarkdownHabits ⟨"a.md", "a", 1⟩ "y"))] "a.md"
         (2, parseMarkdownHabits ⟨"a.md", "a", 2⟩ "x"),
       true⟩ :=
  (claim_C9 ⟨[], fun _ => "x"⟩ [("a.md", (1, parseMarkdownHabits ⟨"a.md", "a", 1⟩ "y"))]
      ⟨"a.md", "a", 2⟩).2.2.2.1 1 (parseMarkdownHabits ⟨"a.md", "a", 1⟩ "y")
    (by decide) (by decide)

/-! ## Config normalization lemmas -/

/-- `jsRound` is `Math.round`, i.e. `⌊q + 1/2⌋`. -/
theorem jsRound_eq_floor (q : ℚ) : jsRound q = ⌊q + 1 / 2⌋ := by
  have hden : (0 : ℚ) < (q.den : ℚ) := by
    exact_mod_cast q.pos
  have hmul : (q.num : ℚ) = q * (q.den : ℚ) :=
    (div_eq_iff hden.ne').mp (Rat.num_div_den q)
  have hpos : (0 : ℚ) < ((2 * q.den : ℕ) : ℚ) := by
    exact_mod_cast Nat.mul_pos (by norm_num) q.pos
  have hq : q + 1 / 2 =
      ((2 * q.num + (q.den : ℤ) : ℤ) : ℚ) / ((2 * q.den : ℕ) : ℚ) := by
    rw [eq_div_iff hpos.ne']
    push_cast
    linear_combination (-2 : ℚ) * hmul
  rw [hq, Rat.floor_intCast_div_natCast, jsRound]
  congr 1

/-- `ratAbsLtBound` is the comparison `|q| < doubleOverflowBound`. -/
theorem ratAbsLtBound_iff (q : ℚ) :
    ratAbsLtBound q = true ↔ |q| < doubleOverflowBound := by
  have hden : (0 : ℚ) < (q.den : ℚ) := by exact_mod_cast q.pos
  have habs : |q| = |(q.num : ℚ)| / (q.den : ℚ) := by
    conv_lhs => rw [← Rat.num_div_den q]
    rw [abs_div, abs_of_pos hden]
  rw [ratAbsLtBound, doubleOverflowBound, habs, div_lt_iff₀ hden, decide_eq_true_eq]
  constructor
  · intro h
    exact_mod_cast h
  · intro h
    exact_mod_cast h

theorem jsMin_eq (a b : ℚ) : jsMin a b = Min.min a b := (min_def a b).symm

theorem jsMax_eq (a b : ℚ) : jsMax a b = Max.max a b := (max_def a b).symm

theorem isOk_ite (p : Prop) [Decidable p] (e : List String) (c1 c2 : NormalizedConfig) :
    isOk (if p then NormalizeResult.err e else NormalizeResult.ok c1) =
      isOk (if p then NormalizeResult.err e else NormalizeResult.ok c2) := by
  split <;> rfl

theorem normalizeResult_ok_elim {p : Prop} [inst : Decidable p] {e : List String}
    {cfg c : NormalizedConfig}
    (h : (if p then NormalizeResult.err e else NormalizeResult.ok cfg) = NormalizeResult.ok c) :
    c = cfg := by
  split at h
  · exact absurd h (by simp)
  · injection h with h
    exact h.symm

/-- C4 (amended): `display.cellSize` / `display.gap` never cause a
normalization error (the ok/err outcome is independent of the whole `display`
block); on success they are `clampNumber` of the raw input with ranges 6–30 /
0–8 and defaults 12 / 2; `clampNumber` rounds numeric input and clamps it to
the nearer bound when out of range, and falls back to the default only for
missing/non-numeric/`NaN` input. -/
theorem claim_C4 (input : HeatmapBlockConfig) :
    (∀ d : RawDisplay,
      isOk (normalizeConfig { input with display := d }) = isOk (normalizeConfig input)) ∧
    (∀ c, normalizeConfig input = NormalizeResult.ok c →
      c.display.cellSize = clampNumber input.display.cellSize 6 30 12 ∧
      c.display.gap = clampNumber input.display.gap 0 8 2) ∧
    (∀ (q mn mx fb : ℚ), mn ≤ mx →
      (mn ≤ clampNumber (some (JsNumber.num q)) mn mx fb ∧
        clampNumber (some (JsNumber.num q)) mn mx fb ≤ mx) ∧
      (mn ≤ (jsRound q : ℚ) → (jsRound q : ℚ) ≤ mx →
        clampNumber (some (JsNumber.num q)) mn mx fb = (jsRound q : ℚ)) ∧
      ((jsRound q : ℚ) < mn → clampNumber (some (JsNumber.num q)) mn mx fb = mn) ∧
      (mx < (jsRound q : ℚ) → clampNumber (some (JsNumber.num q)) mn mx fb = mx)) ∧
    (∀ mn mx fb : ℚ,
      clampNumber none mn mx fb = fb ∧ clampNumber (some JsNumber.nan) mn mx fb = fb) := by
  refine ⟨?_, ?_, ?_, ?_⟩
  · intro d
    simp only [normalizeConfig]
    exact isOk_ite _ _ _ _
  · intro c hok
    simp only [normalizeConfig] at hok
    have h := normalizeResult_ok_elim hok
    rw [h]
    exact ⟨rfl, rfl⟩
  · intro q mn mx fb hmm
    simp only [clampNumber, jsMin_eq, jsMax_eq]
    refine ⟨⟨?_, ?_⟩, ?_, ?_, ?_⟩
    · exact le_min hmm (le_max_left _ _)
    · exact min_le_left _ _
    · intro h1 h2
      rw [max_eq_right h1, min_eq_right h2]
    · intro h1
      rw [max_eq_left (le_of_lt h1), min_eq_right hmm]
    · intro h1
      rw [max_eq_right (le_of_lt (lt_of_le_of_lt hmm h1)), min_eq_left (le_of_lt h1)]
  · intro mn mx fb
    exact ⟨rfl, rfl⟩

/-- Witness for C4 at a concrete configuration. -/
theorem claim_C4_witness :
    cellSizeOf (normalizeConfig
        { display := { cellSize := some (JsNumber.num 14) } }) = 14 ∧
    clampNumber (some (JsNumber.num 14)) 6 30 12 = 14 := by
  constructor
  · have h := (claim_C4 { display := { cellSize := some (JsNumber.num 14) } }).2.1
    cases hr : normalizeConfig { display := { cellSize := some (JsNumber.num 14) } } with
    | ok c =>
      have h2 := (h c hr).1
      simp only [cellSizeOf, h2]
      decide
    | err e =>
      have hok : isOk (normalizeConfig
          { display := { cellSize := some (JsNumber.num 14) } }) = true := by decide
      rw [hr] at hok
      simp [isOk] at hok
  · have h := ((claim_C4 {}).2.2.1 14 6 30 12 (by norm_num)).2.1
      (by decide) (by decide)
    rw [h]
    decide

/-- Counterexample to C4 as stated: out-of-range numeric input is clamped to
the nearer bound (here 100 → 30), not replaced by the default 12. -/
theorem claim_C4_cex :
    cellSizeOf (normalizeConfig { display := { cellSize := some (JsNumber.num 100) } }) = 30 ∧
    isOk (normalizeConfig { display := { cellSize := some (JsNumber.num 100) } }) = true ∧
    (30 : ℚ) ≠ 12 := by
  refine ⟨by decide, by decide, by norm_num⟩

/-! ## Threshold normalization lemmas -/

theorem thresholdStep_eq (out : List NumericThreshold) (entry : RawThreshold) :
    thresholdStep out entry = out ++ (thresholdKeepSpec entry).toList := by
  cases entry with
  | notObject => simp [thresholdStep, thresholdKeepSpec]
  | entry color le gt =>
    cases color with
    | none => simp [thresholdStep, thresholdKeepSpec]
    | some c =>
      by_cases h : (jsTrim c.data).length = 0
      · simp [thresholdStep, thresholdKeepSpec, h]
      · cases le with
        | some v => simp [thresholdStep, thresholdKeepSpec, h]
        | none =>
          cases gt with
          | some v => simp [thresholdStep, thresholdKeepSpec, h]
          | none => simp [thresholdStep, thresholdKeepSpec, h]

theorem thresholdFold_eq (input : List RawThreshold) :
    ∀ out : List NumericThreshold,
      input.foldl thresholdStep out = out ++ input.filterMap thresholdKeepSpec := by
  induction input with
  | nil => intro out; simp
  | cons entry rest ih =>
    intro out
    rw [List.foldl_cons, ih, thresholdStep_eq]
    cases h : thresholdKeepSpec entry <;> simp [List.filterMap_cons, h]

/-- C5 (amended): a non-empty raw threshold list normalizes to exactly those
entries (in input order) that carry a string color non-blank after trimming
and at least one `typeof`-number bound, `le` taking precedence when both
bounds are present; every other entry is silently dropped; if nothing
survives, exactly one error is pushed and the default ladder substituted. -/
theorem claim_C5 (input : List RawThreshold) (errors : List String) :
    (input.filterMap thresholdKeepSpec ≠ [] →
      normalizeThresholds input errors = (input.filterMap thresholdKeepSpec, errors)) ∧
    (input.filterMap thresholdKeepSpec = [] →
      normalizeThresholds input errors =
        (defaultThresholds,
         errors ++ ["colors.numeric.thresholds must include at least one valid threshold"])) ∧
    (∀ c, 0 < (input.length) →
      ∀ raw : HeatmapBlockConfig, raw.colors.thresholds = some input →
      normalizeConfig raw = NormalizeResult.ok c →
      c.colors.thresholds = (normalizeThresholds input []).1) := by
  have hfold : input.foldl thresholdStep [] = input.filterMap thresholdKeepSpec := by
    simpa using thresholdFold_eq input []
  refine ⟨?_, ?_, ?_⟩
  · intro hne
    simp [normalizeThresholds, hfold, hne]
  · intro he
    simp [normalizeThresholds, hfold, he]
  · intro c hlen raw hraw hok
    simp only [normalizeConfig, hraw, Option.getD_some] at hok
    rw [if_pos hlen] at hok
    have h := normalizeResult_ok_elim hok
    rw [h]

/-- Witness for C5: a `gt`-only entry survives normalization unchanged. -/
theorem claim_C5_witness :
    normalizeThresholds [RawThreshold.entry (some "#abc") none (some (JsNumber.num 3))] [] =
      ([⟨"gt", JsNumber.num 3, "#abc"⟩], []) := by
  have h := (claim_C5 [RawThreshold.entry (some "#abc") none (some (JsNumber.num 3))] []).1
    (by decide)
  rw [h]
  decide

/-- Counterexample to C5 as stated: an entry supplying *both* bounds is kept
(as `le`), though the claim says entries without exactly one bound are
dropped; and an entry whose color is a non-empty whitespace string is
dropped, though the claim says any non-empty color string is accepted. -/
theorem claim_C5_cex :
    (normalizeThresholds
        [RawThreshold.entry (some "#fff") (some (JsNumber.num 1)) (some (JsNumber.num 2))]
        []).1 = [⟨"le", JsNumber.num 1, "#fff"⟩] ∧
    (normalizeThresholds [RawThreshold.entry (some " ") (some (JsNumber.num 1)) none] []) =
      (defaultThresholds,
       ["colors.numeric.thresholds must include at least one valid threshold"]) ∧
    " " ≠ "" := by
  refine ⟨by decide, by decide, by decide⟩

/-! ## Date codec lemmas (C10) -/

theorem string_mk_append (l1 l2 : List Char) :
    String.mk l1 ++ String.mk l2 = String.mk (l1 ++ l2) := rfl

theorem dash_eq_mk : "-" = String.mk ['-'] := rfl

theorem toString_natCast_int (n : ℕ) : toString ((n : ℕ) : ℤ) = Nat.repr n := rfl

/-- C10 (amended): `normalizeIsoDate` is the identity on the strings it
accepts, and `toIsoDate (parseIsoDate s) = s` for every accepted string whose
year does not start with the digit 0 (i.e. year ≥ 1000); for years 0100–0999
the rendering drops the leading zero (see the counterexample). -/
theorem claim_C10 :
    (∀ s t : String, normalizeIsoDate s = some t → t = s) ∧
    (∀ s t : String, normalizeIsoDate s = some t → s.data.head? ≠ some '0' →
      (parseIsoDate s).map toIsoDate = some s) := by
  constructor
  · intro s t h
    simp only [normalizeIsoDate] at h
    split at h
    next y1 y2 y3 y4 h1 m1 m2 h2 d1 d2 heq =>
      split at h
      next hguard =>
        split at h
        next hvalid =>
          simp only [Bool.and_eq_true, List.all_cons, List.all_nil, Bool.and_true,
            decide_eq_true_eq] at hguard
          obtain ⟨⟨hdig, hh1⟩, hh2⟩ := hguard
          injection h with h
          rw [← h]
          subst hh1
          subst hh2
          conv_rhs => rw [show s = String.mk s.data from rfl, heq]
        next => simp at h
      next => simp at h
    next => simp at h
  · intro s t h hz
    have h0 := h
    simp only [normalizeIsoDate] at h
    split at h
    next y1 y2 y3 y4 h1 m1 m2 h2 d1 d2 heq =>
      split at h
      next hguard =>
        split at h
        next hvalid =>
          simp only [Bool.and_eq_true, List.all_cons, List.all_nil, Bool.and_true,
            decide_eq_true_eq] at hguard
          obtain ⟨⟨hdig, hh1⟩, hh2⟩ := hguard
          obtain ⟨hg1, hg2, hg3, hg4, hg5, hg6, hg7, hg8⟩ := hdig
          subst hh1
          subst hh2
          injection h with h
          have ht : t = String.mk [y1, y2, y3, y4, '-', m1, m2, '-', d1, d2] := h.symm
          -- the re-parse goes through the same constructor call
          have hparse : parseIsoDate s =
              some (jsMakeDate ((digitsToNat [y1, y2, y3, y4] : ℕ) : ℤ)
                (((digitsToNat [m1, m2] : ℕ) : ℤ) - 1) ((digitsToNat [d1, d2] : ℕ) : ℤ)) := by
            simp only [parseIsoDate, h0, ht]
          rw [hparse, Option.map_some']
          congr 1
          -- digit values and their bounds
          have hb1 := digitVal_le_nine y1 hg1
          have hb2 := digitVal_le_nine y2 hg2
          have hb3 := digitVal_le_nine y3 hg3
          have hb4 := digitVal_le_nine y4 hg4
          have hb5 := digitVal_le_nine m1 hg5
          have hb6 := digitVal_le_nine m2 hg6
          have hb7 := digitVal_le_nine d1 hg7
          have hb8 := digitVal_le_nine d2 hg8
          have hy1 : y1 ≠ '0' := by
            intro hcon
            apply hz
            rw [heq, hcon]
            rfl
          have hvapos : 1 ≤ digitVal y1 := by
            have h48 : y1.toNat ≠ 48 := by
              intro hcon
              exact hy1 (char_eq_of_toNat_eq y1 '0' (by rw [hcon]; rfl))
            simp only [jsIsDigit, Bool.and_eq_true, decide_eq_true_eq] at hg1
            simp only [digitVal]
            omega
          have hY : digitsToNat [y1, y2, y3, y4] =
              ((digitVal y1 * 10 + digitVal y2) * 10 + digitVal y3) * 10 + digitVal y4 := by
            simp [digitsToNat]
          have hM : digitsToNat [m1, m2] = digitVal m1 * 10 + digitVal m2 := by
            simp [digitsToNat]
          have hD : digitsToNat [d1, d2] = digitVal d1 * 10 + digitVal d2 := by
            simp [digitsToNat]
          rw [toIsoDate, hvalid.1, hvalid.2.1, hvalid.2.2, Int.sub_add_cancel,
            toString_natCast_int, toString_natCast_int, toString_natCast_int,
            repr_eq_decChars, hY,
            decChars_four (digitVal y1) (digitVal y2) (digitVal y3) (digitVal y4)
              hvapos hb1 hb2 hb3 hb4,
            hM, pad2_repr (digitVal m1) (digitVal m2) hb5 hb6,
            hD, pad2_repr (digitVal d1) (digitVal d2) hb7 hb8,
            digitChar_digitVal y1 hg1, digitChar_digitVal y2 hg2,
            digitChar_digitVal y3 hg3, digitChar_digitVal y4 hg4,
            digitChar_digitVal m1 hg5, digitChar_digitVal m2 hg6,
            digitChar_digitVal d1 hg7, digitChar_digitVal d2 hg8]
          conv_rhs => rw [show s = String.mk s.data from rfl, heq]
          rfl
        next => simp at h
      next => simp at h
    next => simp at h

/-- Witness for C10 at a concrete accepted string. -/
theorem claim_C10_witness :
    (parseIsoDate "2026-02-10").map toIsoDate = some "2026-02-10" :=
  claim_C10.2 "2026-02-10" "2026-02-10" (by decide) (by decide)

/-- Counterexample to C10 as stated: "0100-01-02" is accepted by
`normalizeIsoDate` (the JS `Date` 0–99 year adjustment only rejects years
≤ 99), but `toIsoDate` does not pad the year, so the round trip yields
"100-01-02". -/
theorem claim_C10_cex :
    normalizeIsoDate "0100-01-02" = some "0100-01-02" ∧
    (parseIsoDate "0100-01-02").map toIsoDate = some "100-01-02" ∧
    ("100-01-02" : String) ≠ "0100-01-02" := by
  refine ⟨by decide, by decide, by decide⟩

/-! ## Accumulator resolution lemmas (C2) -/

theorem resolveEntry_key (p : String × DateAccumulator) (r : String × ResolvedHabitValue)
    (h : resolveEntry p = some r) : r.1 = p.1 := by
  simp only [resolveEntry] at h
  split at h
  · injection h with h
    rw [← h]
  · cases hb : resolveBoolean p.2 with
    | none => rw [hb] at h; simp at h
    | some b =>
      rw [hb] at h
      simp only [Option.map_some'] at h
      injection h with h
      rw [← h]

theorem mget_filterMap_resolve_none (l : List (String × DateAccumulator)) (k : String)
    (hk : k ∉ l.map Prod.fst) : mget (l.filterMap resolveEntry) k = none := by
  induction l with
  | nil => rfl
  | cons p rest ih =>
    simp only [List.map_cons, List.mem_cons] at hk
    push_neg at hk
    cases he : resolveEntry p with
    | none => simp only [List.filterMap_cons, he]; exact ih hk.2
    | some r =>
      simp only [List.filterMap_cons, he, mget]
      have hne : r.1 ≠ k := by
        rw [resolveEntry_key p r he]
        exact fun hh => hk.1 hh.symm
      rw [if_neg hne]
      exact ih hk.2

theorem mget_filterMap_resolve (l : List (String × DateAccumulator)) (k : String)
    (hnd : KeysNodup l) :
    mget (l.filterMap resolveEntry) k =
      (mget l k).bind (fun acc => (resolveEntry (k, acc)).map Prod.snd) := by
  induction l with
  | nil => rfl
  | cons p rest ih =>
    obtain ⟨k0, a0⟩ := p
    simp only [KeysNodup, List.map_cons, List.nodup_cons] at hnd
    by_cases hk : k0 = k
    · subst hk
      cases he : resolveEntry (k0, a0) with
      | none =>
        simp only [List.filterMap_cons, he, mget, if_pos rfl]
        rw [mget_filterMap_resolve_none rest k0 hnd.1]
        simp [he]
      | some r =>
        have hr1 : r.1 = k0 := resolveEntry_key _ _ he
        simp only [List.filterMap_cons, he, mget, hr1, if_pos rfl]
        simp [he]
    · cases he : resolveEntry (k0, a0) with
      | none =>
        simp only [List.filterMap_cons, he, mget, if_neg hk]
        exact ih hnd.2
      | some r =>
        have hr1 : r.1 = k0 := resolveEntry_key _ _ he
        simp only [List.filterMap_cons, he, mget, hr1, if_neg hk]
        exact ih hnd.2

theorem resolveHabits_fold (l : List (String × DateAccumulator)) :
    ∀ r0, (∀ p ∈ l, mget r0 p.1 = none) → KeysNodup l →
      l.foldl resolveHabitEntryStep r0 = r0 ++ l.filterMap resolveEntry := by
  induction l with
  | nil => intro r0 _ _; simp
  | cons p rest ih =>
    intro r0 hdisj hnd
    obtain ⟨k0, a0⟩ := p
    simp only [KeysNodup, List.map_cons, List.nodup_cons] at hnd
    have hget : mget r0 k0 = none := hdisj (k0, a0) (by simp)
    have hstep : resolveHabitEntryStep r0 (k0, a0) = r0 ++ (resolveEntry (k0, a0)).toList := by
      simp only [resolveHabitEntryStep, resolveEntry]
      split
      · rw [mset_eq_append _ _ _ hget]
        rfl
      · cases hb : resolveBoolean a0 with
        | none => simp
        | some b => simp [mset_eq_append _ _ _ hget]
    rw [List.foldl_cons, hstep, ih (r0 ++ (resolveEntry (k0, a0)).toList) ?hd hnd.2]
    · cases he : resolveEntry (k0, a0) <;> simp [List.filterMap_cons, he]
    · intro p hp
      rw [mget_append, hdisj p (by simp [hp])]
      cases he : resolveEntry (k0, a0) with
      | none => rfl
      | some r =>
        have hr1 : r.1 = k0 := resolveEntry_key _ _ he
        have hne : r.1 ≠ p.1 := by
          rw [hr1]
          intro hcon
          exact hnd.1 (hcon ▸ List.mem_map_of_mem Prod.fst hp)
        simp [mget, hne]

theorem resolveDateEntry_key (e : String × List (String × DateAccumulator))
    (r : String × List (String × ResolvedHabitValue))
    (h : resolveDateEntry e = some r) : r.1 = e.1 := by
  simp only [resolveDateEntry] at h
  split at h
  · simp at h
  · injection h with h
    rw [← h]

theorem resolveDateStep_eq (out : ValueMap) (entry : String × List (String × DateAccumulator))
    (hget : mget out entry.1 = none) (hnd : KeysNodup entry.2) :
    resolveDateStep out entry = out ++ (resolveDateEntry entry).toList := by
  have hin : entry.2.foldl resolveHabitEntryStep [] = entry.2.filterMap resolveEntry := by
    simpa using resolveHabits_fold entry.2 [] (by intro p _; rfl) hnd
  simp only [resolveDateStep, resolveDateEntry, hin]
  by_cases hres : entry.2.filterMap resolveEntry = []
  · simp [hres]
  · have hpos : 0 < (entry.2.filterMap resolveEntry).length := List.length_pos.mpr hres
    simp [hres, hpos, mset_eq_append _ _ _ hget]

theorem resolveDates_fold (accs : AccMap) :
    ∀ out, (∀ e ∈ accs, mget out e.1 = none) → KeysNodup accs →
      (∀ e ∈ accs, KeysNodup e.2) →
      accs.foldl resolveDateStep out = out ++ accs.filterMap resolveDateEntry := by
  induction accs with
  | nil => intro out _ _ _; simp
  | cons e rest ih =>
    intro out hdisj hnd1 hnd2
    simp only [KeysNodup, List.map_cons, List.nodup_cons] at hnd1
    rw [List.foldl_cons,
      resolveDateStep_eq out e (hdisj e (by simp)) (hnd2 e (by simp)),
      ih (out ++ (resolveDateEntry e).toList) ?hd hnd1.2 (fun x hx => hnd2 x (by simp [hx]))]
    · cases he : resolveDateEntry e <;> simp [List.filterMap_cons, he]
    · intro x hx
      rw [mget_append, hdisj x (by simp [hx])]
      cases he : resolveDateEntry e with
      | none => rfl
      | some r =>
        have hr1 : r.1 = e.1 := resolveDateEntry_key _ _ he
        have hne : r.1 ≠ x.1 := by
          rw [hr1]
          intro hcon
          exact hnd1.1 (hcon ▸ List.mem_map_of_mem Prod.fst hx)
        simp [mget, hne]

theorem resolveAccumulators_eq (accs : AccMap) (hnd1 : KeysNodup accs)
    (hnd2 : ∀ e ∈ accs, KeysNodup e.2) :
    resolveAccumulators accs = accs.filterMap resolveDateEntry := by
  simpa [resolveAccumulators] using
    resolveDates_fold accs [] (by intro e _; rfl) hnd1 hnd2

theorem mget_filterMap_dateEntry_none (accs : AccMap) (k : String)
    (hk : k ∉ accs.map Prod.fst) : mget (accs.filterMap resolveDateEntry) k = none := by
  induction accs with
  | nil => rfl
  | cons e rest ih =>
    simp only [List.map_cons, List.mem_cons] at hk
    push_neg at hk
    cases he : resolveDateEntry e with
    | none => simp only [List.filterMap_cons, he]; exact ih hk.2
    | some r =>
      simp only [List.filterMap_cons, he, mget]
      have hne : r.1 ≠ k := by
        rw [resolveDateEntry_key e r he]
        exact fun hh => hk.1 hh.symm
      rw [if_neg hne]
      exact ih hk.2

/-- Full two-level lookup characterisation of `resolveAccumulators`. -/
theorem resolveAccumulators_mget2 (accs : AccMap) (date habit : String)
    (hnd1 : KeysNodup accs) (hnd2 : ∀ e ∈ accs, KeysNodup e.2) :
    mget2 (resolveAccumulators accs) date habit =
      (mget2 accs date habit).bind (fun acc => (resolveEntry (habit, acc)).map Prod.snd) := by
  rw [resolveAccumulators_eq accs hnd1 hnd2]
  induction accs with
  | nil => rfl
  | cons e rest ih =>
    obtain ⟨d0, habits0⟩ := e
    simp only [KeysNodup, List.map_cons, List.nodup_cons] at hnd1
    have hnd2' : ∀ x ∈ rest, KeysNodup x.2 := fun x hx => hnd2 x (by simp [hx])
    by_cases hd : d0 = date
    · subst hd
      cases he : resolveDateEntry (d0, habits0) with
      | none =>
        have hempty : habits0.filterMap resolveEntry = [] := by
          simp only [resolveDateEntry] at he
          split at he
          · assumption
          · simp at he
        simp only [List.filterMap_cons, he, mget2, mget, if_pos rfl, Option.some_bind]
        rw [show mget (rest.filterMap resolveDateEntry) d0 = none from
          mget_filterMap_dateEntry_none rest d0 hnd1.1]
        cases hm : mget habits0 habit with
        | none => simp [hm]
        | some acc =>
          have hmem := mem_of_mget_eq_some habits0 habit acc hm
          have hnone : resolveEntry (habit, acc) = none :=
            (List.filterMap_eq_nil_iff.mp hempty) _ hmem
          simp [hm, hnone]
      | some r =>
        have hr1 : r.1 = d0 := resolveDateEntry_key _ _ he
        have hr2 : r.2 = habits0.filterMap resolveEntry := by
          simp only [resolveDateEntry] at he
          split at he
          · simp at he
          · injection he with he
            rw [← he]
        simp only [mget2, List.filterMap_cons, he, mget, hr1, eq_self_iff_true, if_true,
          Option.some_bind, hr2]
        rw [mget_filterMap_resolve habits0 habit (hnd2 (d0, habits0) (by simp))]
    · cases he : resolveDateEntry (d0, habits0) with
      | none =>
        simp only [mget2, List.filterMap_cons, he, mget, if_neg hd]
        exact ih hnd1.2 hnd2'
      | some r =>
        have hr1 : r.1 = d0 := resolveDateEntry_key _ _ he
        simp only [mget2, List.filterMap_cons, he, mget, hr1, if_neg hd]
        exact ih hnd1.2 hnd2'

/-- C2: with `hasNumeric = false`, boolean finalization follows the fixed
priority inline-true > checklist-true > checklist-false > inline-false, and
with all four flags unset no value is produced: the `(date, habit)` pair is
omitted from the parsed value map. -/
theorem claim_C2 (acc : DateAccumulator) (hnum : acc.hasNumeric = false) :
    (acc.inlineTrue = true → resolveBoolean acc = some true) ∧
    (acc.inlineTrue = false → acc.checklistTrue = true → resolveBoolean acc = some true) ∧
    (acc.inlineTrue = false → acc.checklistTrue = false → acc.checklistFalse = true →
      resolveBoolean acc = some false) ∧
    (acc.inlineTrue = false → acc.checklistTrue = false → acc.checklistFalse = false →
      acc.inlineFalse = true → resolveBoolean acc = some false) ∧
    (acc.inlineTrue = false → acc.checklistTrue = false → acc.checklistFalse = false →
      acc.inlineFalse = false → resolveBoolean acc = none) ∧
    (∀ accs date habit, KeysNodup accs → (∀ e ∈ accs, KeysNodup e.2) →
      mget2 accs date habit = some acc →
      ∀ b, resolveBoolean acc = some b →
        mget2 (resolveAccumulators accs) date habit =
          some (ResolvedHabitValue.boolean b)) ∧
    (∀ accs date habit, KeysNodup accs → (∀ e ∈ accs, KeysNodup e.2) →
      mget2 accs date habit = some acc →
      resolveBoolean acc = none →
      mget2 (resolveAccumulators accs) date habit = none) := by
  refine ⟨?_, ?_, ?_, ?_, ?_, ?_, ?_⟩
  · intro h
    simp [resolveBoolean, h]
  · intro h1 h2
    simp [resolveBoolean, h1, h2]
  · intro h1 h2 h3
    simp [resolveBoolean, h1, h2, h3]
  · intro h1 h2 h3 h4
    simp [resolveBoolean, h1, h2, h3, h4]
  · intro h1 h2 h3 h4
    simp [resolveBoolean, h1, h2, h3, h4]
  · intro accs date habit hnd1 hnd2 hmget b hb
    rw [resolveAccumulators_mget2 accs date habit hnd1 hnd2, hmget]
    simp [resolveEntry, hnum, hb]
  · intro accs date habit hnd1 hnd2 hmget hb
    rw [resolveAccumulators_mget2 accs date habit hnd1 hnd2, hmget]
    simp [resolveEntry, hnum, hb]

/-- Witness for C2: checklist-true beats checklist-false, and an all-false
accumulator is dropped from the parsed value map. -/
theorem claim_C2_witness :
    resolveBoolean ⟨0, false, false, false, true, true⟩ = some true ∧
    mget2 (resolveAccumulators [("2024-01-01", [("run", freshAccumulator)])])
      "2024-01-01" "run" = none := by
  constructor
  · exact (claim_C2 ⟨0, false, false, false, true, true⟩ rfl).2.1 rfl rfl
  · exact (claim_C2 freshAccumulator rfl).2.2.2.2.2.2
      [("2024-01-01", [("run", freshAccumulator)])] "2024-01-01" "run"
      (by simp [KeysNodup])
      (by
        intro e he
        simp only [List.mem_singleton] at he
        subst he
        simp [KeysNodup])
      (by decide) rfl

/-! ## Range enumeration lemmas (C7) -/

theorem enumerateDates_eq (a b : String) (s e : ℤ)
    (ha : parseIsoDate a = some s) (hb : parseIsoDate b = some e) :
    enumerateDates a b =
      if e < s then []
      else (List.range (dayDiffInclusive s e).toNat).map (fun i => toIsoDate (addDays s i)) := by
  simp [enumerateDates, ha, hb]

set_option maxRecDepth 100000 in
/-- C7: every successful range resolution enumerates the contiguous inclusive
day range from `startDate` to `endDate` (as `toIsoDate` of `startDate + i`);
week ranges carry exactly 7 dates; month ranges span the first through the
last day of the configured month (month(2024, 2) yields 29 dates); and year
ranges span Jan 1 through Dec 31 (year(2023) yields 365 dates). -/
theorem claim_C7 :
    (∀ config file range, resolveRange config file = RangeResult.ok range →
      range.dates = enumerateDates range.startDate range.endDate ∧
      (∀ s e, parseIsoDate range.startDate = some s → parseIsoDate range.endDate = some e →
        range.dates =
          if e < s then []
          else (List.range (dayDiffInclusive s e).toNat).map
            (fun i => toIsoDate (addDays s i))) ∧
      (range.type = "week" → range.dates.length = 7) ∧
      (config.range.type = "month" →
        range.startDate = toString (jsNumToInt config.range.year) ++ "-"
          ++ pad2 (toString (jsNumToInt config.range.month)) ++ "-01" ∧
        range.endDate =
          toIsoDate (jsMakeDate (jsNumToInt config.range.year)
            (jsNumToInt config.range.month) 0)) ∧
      (config.range.type = "year" →
        range.startDate = toString (jsNumToInt config.range.year) ++ "-01-01" ∧
        range.endDate = toString (jsNumToInt config.range.year) ++ "-12-31")) ∧
    rangeDatesLength (resolveRange
      { DEFAULT_CONFIG with
          range := ⟨"month", some (JsNumber.num 2024), some (JsNumber.num 2), true⟩ }
      ⟨"x.md", "x", 0⟩) = 29 ∧
    rangeDatesLength (resolveRange
      { DEFAULT_CONFIG with
          range := ⟨"year", some (JsNumber.num 2023), none, true⟩ }
      ⟨"x.md", "x", 0⟩) = 365 := by
  refine ⟨?_, by decide, by decide⟩
  intro config file range hok
  have hmain : range.dates = enumerateDates range.startDate range.endDate ∧
      (range.type = "week" → range.dates.length = 7) ∧
      (config.range.type = "month" →
        range.startDate = toString (jsNumToInt config.range.year) ++ "-"
          ++ pad2 (toString (jsNumToInt config.range.month)) ++ "-01" ∧
        range.endDate =
          toIsoDate (jsMakeDate (jsNumToInt config.range.year)
            (jsNumToInt config.range.month) 0)) ∧
      (config.range.type = "year" →
        range.startDate = toString (jsNumToInt config.range.year) ++ "-01-01" ∧
        range.endDate = toString (jsNumToInt config.range.year) ++ "-12-31") := by
    simp only [resolveRange] at hok
    split at hok
    next hweek =>
      -- week branch
      split at hok
      next => exact absurd hok (by simp)
      next =>
        split at hok
        next => exact absurd hok (by simp)
        next t1 t2 hm =>
          split at hok
          next startIso endIso h1 h2 =>
            split at hok
            next => exact absurd hok (by simp)
            next hlen =>
              injection hok with hok
              rw [← hok]
              push_neg at hlen
              refine ⟨rfl, fun _ => hlen, fun hmon => ?_, fun hyr => ?_⟩
              · rw [hweek] at hmon
                exact absurd hmon (by decide)
              · rw [hweek] at hyr
                exact absurd hyr (by decide)
          all_goals exact absurd hok (by simp)
    next hnotweek =>
      split at hok
      next hmonth =>
        -- month branch
        by_cases hy : isValidYear config.range.year = true
        · by_cases hm2 : isValidMonth config.range.month = true
          · rw [if_neg (by simp [hy, hm2])] at hok
            injection hok with hok
            rw [← hok]
            refine ⟨rfl, fun hw => absurd hw (by simp), fun _ => ⟨rfl, rfl⟩, fun hyr => ?_⟩
            rw [hmonth] at hyr
            exact absurd hyr (by decide)
          · rw [if_pos (by simp [hy, hm2])] at hok
            exact absurd hok (by simp)
        · rw [if_pos (by simp [hy])] at hok
          exact absurd hok (by simp)
      next hnotmonth =>
        -- year branch
        split at hok
        next => exact absurd hok (by simp)
        next =>
          injection hok with hok
          rw [← hok]
          exact ⟨rfl, fun hw => absurd hw (by simp),
            fun hmon => absurd hmon hnotmonth, fun _ => ⟨rfl, rfl⟩⟩
  refine ⟨hmain.1, ?_, hmain.2.1, hmain.2.2.1, hmain.2.2.2⟩
  intro s e hs he
  rw [hmain.1]
  exact enumerateDates_eq range.startDate range.endDate s e hs he

/-- Witness for C7: the concrete week range 2026-02-09 … 2026-02-15. -/
theorem claim_C7_witness :
    (enumerateDates "2026-02-09" "2026-02-15").length = 7 := by
  have h := (claim_C7.1 DEFAULT_CONFIG ⟨"w.md", "2026.02.09 - 2026.02.15", 0⟩
    ⟨"week", "2026-02-09", "2026-02-15", enumerateDates "2026-02-09" "2026-02-15"⟩
    (by decide)).2.2.1 rfl
  simpa using h

/-! ## Inline token extraction lemmas (C3) -/

theorem string_length_zero_iff (s : String) : s.length = 0 ↔ s = "" := by
  cases s with
  | mk l =>
    show l.length = 0 ↔ _
    rw [List.length_eq_zero]
    constructor
    · intro h
      rw [h]
    · intro h
      exact congrArg String.data h

theorem bucketOf_updateAcc_self (accs : AccMap) (date habit : String)
    (f : DateAccumulator → DateAccumulator) :
    bucketOf (updateAcc accs date habit f) date habit = f (bucketOf accs date habit) := by
  cases hm : mget accs date with
  | none => simp [updateAcc, bucketOf, mget2, hm, mget_mset_self, mget]
  | some byHabit => simp [updateAcc, bucketOf, mget2, hm, mget_mset_self, mget]

theorem bucketOf_updateAcc_other (accs : AccMap) (date habit habit2 : String)
    (f : DateAccumulator → DateAccumulator) (hne : habit2 ≠ habit) :
    bucketOf (updateAcc accs date habit2 f) date habit = bucketOf accs date habit := by
  cases hm : mget accs date with
  | none =>
    simp [updateAcc, bucketOf, mget2, hm, mget_mset_self, mget_mset_ne _ _ _ _ hne, mget, hne]
  | some byHabit =>
    simp [updateAcc, bucketOf, mget2, hm, mget_mset_self, mget_mset_ne _ _ _ _ hne]

theorem bucketOf_applyInline_self (date : String) (accs : AccMap) (m : InlineMatch)
    (habit : String) (hm : trimmedHabit m = habit) (hhab : habit ≠ "") :
    bucketOf (applyInlineMatch date accs m) date habit =
      inlineEffect m (bucketOf accs date habit) := by
  have hm' : String.mk (jsTrim m.habit) = habit := hm
  have hv : String.mk ((jsTrim m.rawValue).map Char.toLower) = trimmedValue m := rfl
  have hlen : ¬(habit : String).length = 0 := by
    rw [string_length_zero_iff]
    exact hhab
  by_cases ht : trimmedValue m = "true" ∨ trimmedValue m = "yes"
  · have htb : isTrueToken m = true := by simp [isTrueToken, ht]
    rcases ht with ht | ht <;>
      simp [applyInlineMatch, hlen, hm', hv, ht, inlineEffect, htb, bucketOf_updateAcc_self]
  · have htb : isTrueToken m = false := by
      simp only [isTrueToken, Bool.or_eq_false_iff, decide_eq_false_iff_not]
      push_neg at ht
      exact ⟨ht.1, ht.2⟩
    by_cases hf : trimmedValue m = "false" ∨ trimmedValue m = "no"
    · have hfb : isFalseToken m = true := by simp [isFalseToken, hf]
      rcases hf with hf | hf <;>
        simp [applyInlineMatch, hlen, hm', hv, ht, hf, inlineEffect, htb, hfb,
          bucketOf_updateAcc_self]
    · have hfb : isFalseToken m = false := by
        simp only [isFalseToken, Bool.or_eq_false_iff, decide_eq_false_iff_not]
        push_neg at hf
        exact ⟨hf.1, hf.2⟩
      have hnum : numericTokenValue m = jsNumberFinite (trimmedValue m) := by
        simp [numericTokenValue, htb, hfb]
      cases hq : jsNumberFinite (trimmedValue m) with
      | none =>
        simp [applyInlineMatch, hlen, hm', hv, ht, hf, inlineEffect, htb, hfb, hnum, hq]
      | some q =>
        simp [applyInlineMatch, hlen, hm', hv, ht, hf, inlineEffect, htb, hfb, hnum, hq,
          bucketOf_updateAcc_self]

theorem bucketOf_applyInline_other (date : String) (accs : AccMap) (m : InlineMatch)
    (habit : String) (hm : trimmedHabit m ≠ habit) :
    bucketOf (applyInlineMatch date accs m) date habit = bucketOf accs date habit := by
  have hm' : String.mk (jsTrim m.habit) ≠ habit := hm
  simp only [applyInlineMatch]
  by_cases hlen : (String.mk (jsTrim m.habit)).length = 0
  · simp [hlen]
  · have hlen2 : ¬(jsTrim m.habit = []) := by
      intro hcon
      apply hlen
      show (String.mk (jsTrim m.habit)).length = 0
      rw [hcon]
      rfl
    by_cases ht : String.mk ((jsTrim m.rawValue).map Char.toLower) = "true" ∨
        String.mk ((jsTrim m.rawValue).map Char.toLower) = "yes"
    · simp [hlen, hlen2, ht, bucketOf_updateAcc_other _ _ _ _ _ hm']
    · by_cases hf : String.mk ((jsTrim m.rawValue).map Char.toLower) = "false" ∨
          String.mk ((jsTrim m.rawValue).map Char.toLower) = "no"
      · simp [hlen, hlen2, ht, hf, bucketOf_updateAcc_other _ _ _ _ _ hm']
      · cases hq : jsNumberFinite (String.mk ((jsTrim m.rawValue).map Char.toLower)) with
        | none => simp [hlen, hlen2, ht, hf, hq]
        | some q => simp [hlen, hlen2, ht, hf, hq, bucketOf_updateAcc_other _ _ _ _ _ hm']

theorem inlineFold_bucket (date habit : String) (hhab : habit ≠ "") :
    ∀ (ms : List InlineMatch) (accs : AccMap),
      let toks := ms.filter (fun m => trimmedHabit m = habit)
      let b0 := bucketOf accs date habit
      let b1 := bucketOf (ms.foldl (applyInlineMatch date) accs) date habit
      b1.numericSum = b0.numericSum + (toks.filterMap numericTokenValue).sum ∧
      b1.hasNumeric = (b0.hasNumeric || toks.any (fun m => (numericTokenValue m).isSome)) ∧
      b1.inlineTrue = (b0.inlineTrue || toks.any isTrueToken) ∧
      b1.inlineFalse = (b0.inlineFalse || toks.any isFalseToken) ∧
      b1.checklistTrue = b0.checklistTrue ∧
      b1.checklistFalse = b0.checklistFalse := by
  intro ms
  induction ms with
  | nil =>
    intro accs
    simp
  | cons m rest ih =>
    intro accs
    dsimp only
    by_cases hm : trimmedHabit m = habit
    · have hfil : (m :: rest).filter (fun m => trimmedHabit m = habit)
          = m :: rest.filter (fun m => trimmedHabit m = habit) := by
        simp [List.filter_cons, hm]
      have hstep := bucketOf_applyInline_self date accs m habit hm hhab
      have hrest := ih (applyInlineMatch date accs m)
      dsimp only at hrest
      obtain ⟨e1, e2, e3, e4, e5, e6⟩ := hrest
      rw [hstep] at e1 e2 e3 e4 e5 e6
      rw [List.foldl_cons, hfil]
      simp only [List.filterMap_cons, List.any_cons]
      by_cases ht : isTrueToken m = true
      · have hnone : numericTokenValue m = none := by
          simp [numericTokenValue, ht]
        have hfb : isFalseToken m = false := by
          simp only [isTrueToken, Bool.or_eq_true, decide_eq_true_eq] at ht
          rcases ht with ht | ht <;> simp [isFalseToken, ht]
        simp only [inlineEffect, ht, if_true] at e1 e2 e3 e4 e5 e6
        refine ⟨?_, ?_, ?_, ?_, ?_, ?_⟩ <;>
          simp [hnone, ht, hfb, e1, e2, e3, e4, e5, e6]
      · by_cases hf : isFalseToken m = true
        · have hnone : numericTokenValue m = none := by
            simp [numericTokenValue, hf]
          simp only [inlineEffect, ht, hf, Bool.false_eq_true, if_false, if_true]
            at e1 e2 e3 e4 e5 e6
          refine ⟨?_, ?_, ?_, ?_, ?_, ?_⟩ <;>
            simp [hnone, ht, hf, e1, e2, e3, e4, e5, e6]
        · simp only [Bool.not_eq_true] at ht hf
          cases hq : numericTokenValue m with
          | none =>
            simp only [inlineEffect, ht, hf, hq, Bool.false_eq_true, if_false]
              at e1 e2 e3 e4 e5 e6
            refine ⟨?_, ?_, ?_, ?_, ?_, ?_⟩ <;>
              simp [ht, hf, hq, e1, e2, e3, e4, e5, e6]
          | some q =>
            simp only [inlineEffect, ht, hf, hq, Bool.false_eq_true, if_false]
              at e1 e2 e3 e4 e5 e6
            refine ⟨?_, ?_, ?_, ?_, ?_, ?_⟩ <;>
              simp [ht, hf, hq, e1, e2, e3, e4, e5, e6] <;> ring
    · have hfil : (m :: rest).filter (fun m => trimmedHabit m = habit)
          = rest.filter (fun m => trimmedHabit m = habit) := by
        simp [List.filter_cons, hm]
      have hstep := bucketOf_applyInline_other date accs m habit hm
      have hrest := ih (applyInlineMatch date accs m)
      dsimp only at hrest
      rw [hstep] at hrest
      rw [List.foldl_cons, hfil]
      exact hrest

/-- C3: `extractInlineTokens` processes exactly the matches of the inline
pattern in order; each token's value is trimmed and lower-cased and then
classified — true/yes sets the inline-true flag, false/no sets the
inline-false flag, a value that `Number` parses to a finite double is added
by summation into the `(date, habit)` numeric accumulator, and an
unparseable (overflowing) value contributes nothing. -/
theorem claim_C3 (line : List Char) (activeDate : String) (accs : AccMap) (habit : String)
    (hhab : habit ≠ "") :
    extractInlineTokens line activeDate accs =
      (findInlineMatches line).foldl (applyInlineMatch activeDate) accs ∧
    (∀ m ∈ inlineTokensFor line habit,
      (isTrueToken m = true ↔ (trimmedValue m = "true" ∨ trimmedValue m = "yes")) ∧
      (isFalseToken m = true ↔ (trimmedValue m = "false" ∨ trimmedValue m = "no")) ∧
      (isTrueToken m = false → isFalseToken m = false →
        numericTokenValue m = jsNumberFinite (trimmedValue m))) ∧
    (bucketOf (extractInlineTokens line activeDate accs) activeDate habit).numericSum =
      (bucketOf accs activeDate habit).numericSum +
        ((inlineTokensFor line habit).filterMap numericTokenValue).sum ∧
    (bucketOf (extractInlineTokens line activeDate accs) activeDate habit).hasNumeric =
      ((bucketOf accs activeDate habit).hasNumeric ||
        (inlineTokensFor line habit).any (fun m => (numericTokenValue m).isSome)) ∧
    (bucketOf (extractInlineTokens line activeDate accs) activeDate habit).inlineTrue =
      ((bucketOf accs activeDate habit).inlineTrue ||
        (inlineTokensFor line habit).any isTrueToken) ∧
    (bucketOf (extractInlineTokens line activeDate accs) activeDate habit).inlineFalse =
      ((bucketOf accs activeDate habit).inlineFalse ||
        (inlineTokensFor line habit).any isFalseToken) ∧
    (bucketOf (extractInlineTokens line activeDate accs) activeDate habit).checklistTrue =
      (bucketOf accs activeDate habit).checklistTrue ∧
    (bucketOf (extractInlineTokens line activeDate accs) activeDate habit).checklistFalse =
      (bucketOf accs activeDate habit).checklistFalse := by
  have hfold := inlineFold_bucket activeDate habit hhab (findInlineMatches line) accs
  dsimp only at hfold
  refine ⟨rfl, ?_, hfold.1, hfold.2.1, hfold.2.2.1, hfold.2.2.2.1, hfold.2.2.2.2.1,
    hfold.2.2.2.2.2⟩
  intro m _
  refine ⟨by simp [isTrueToken], by simp [isFalseToken], ?_⟩
  intro h1 h2
  simp [numericTokenValue, h1, h2]

/-- Witness for C3: one true token and one no token for the same habit. -/
theorem claim_C3_witness :
    (bucketOf (extractInlineTokens "habit-run::true habit-run::no".data "2026-02-10" [])
      "2026-02-10" "run").inlineTrue = true ∧
    (bucketOf (extractInlineTokens "habit-run::true habit-run::no".data "2026-02-10" [])
      "2026-02-10" "run").inlineFalse = true := by
  have h := claim_C3 "habit-run::true habit-run::no".data "2026-02-10" [] "run" (by decide)
  constructor
  · rw [h.2.2.2.2.1]
    decide
  · rw [h.2.2.2.2.2.1]
    decide

/-! ## Scan aggregation lemmas (C1) -/

theorem values_indep_of_file (f g : TFile) (c : String) :
    (parseMarkdownHabits f c).valuesByDateHabit =
      (parseMarkdownHabits g c).valuesByDateHabit := rfl

theorem mem_scanHabitStep (date : String)
    (p : List (String × List (String × AggregateBucket)) × List String)
    (hv : String × ResolvedHabitValue) (x : String) (hx : x ∈ p.2) :
    x ∈ (scanHabitStep date p hv).2 :=
  mem_sadd_of_mem _ _ _ hx

theorem mem_habitFold_mono (date : String) (l : List (String × ResolvedHabitValue)) :
    ∀ p x, x ∈ p.2 → x ∈ (l.foldl (scanHabitStep date) p).2 := by
  induction l with
  | nil => intro p x hx; exact hx
  | cons hv rest ih =>
    intro p x hx
    exact ih _ x (mem_scanHabitStep date p hv x hx)

theorem mem_habitFold_self (date : String) (l : List (String × ResolvedHabitValue)) :
    ∀ p habit v, (habit, v) ∈ l → habit ∈ (l.foldl (scanHabitStep date) p).2 := by
  induction l with
  | nil => intro p habit v hmem; simp at hmem
  | cons hv rest ih =>
    intro p habit v hmem
    rcases List.mem_cons.mp hmem with heq | htail
    · rw [List.foldl_cons]
      apply mem_habitFold_mono
      rw [← heq]
      exact mem_sadd_self _ _
    · exact ih _ habit v htail

theorem mem_scanDateStep_mono (dates : List String)
    (p : List (String × List (String × AggregateBucket)) × List String)
    (entry : String × List (String × ResolvedHabitValue)) (x : String) (hx : x ∈ p.2) :
    x ∈ (scanDateStep dates p entry).2 := by
  simp only [scanDateStep]
  split
  · exact mem_habitFold_mono _ _ _ _ hx
  · exact hx

theorem mem_dateFold_mono (dates : List String) (entries : ValueMap) :
    ∀ p x, x ∈ p.2 → x ∈ (entries.foldl (scanDateStep dates) p).2 := by
  induction entries with
  | nil => intro p x hx; exact hx
  | cons e rest ih =>
    intro p x hx
    exact ih _ x (mem_scanDateStep_mono dates p e x hx)

theorem mem_dateFold_self (dates : List String) (entries : ValueMap) :
    ∀ p date vs habit v, (date, vs) ∈ entries → dates.contains date = true →
      (habit, v) ∈ vs → habit ∈ (entries.foldl (scanDateStep dates) p).2 := by
  induction entries with
  | nil => intro p date vs habit v hmem; simp at hmem
  | cons e rest ih =>
    intro p date vs habit v hmem hdate hhv
    rcases List.mem_cons.mp hmem with heq | htail
    · rw [List.foldl_cons]
      apply mem_dateFold_mono
      rw [← heq]
      simp only [scanDateStep, hdate, if_pos rfl]
      exact mem_habitFold_self date vs p habit v hhv
    · exact ih _ date vs habit v htail hdate hhv

theorem getParsedFile_coherent (vault : Vault) (cache : Cache) (file : TFile)
    (hcoh : CacheCoherent vault cache) :
    (getParsedFile vault cache file).parsed.valuesByDateHabit = parsedValuesOf vault file ∧
    CacheCoherent vault (getParsedFile vault cache file).cache := by
  cases hc : mget cache file.path with
  | some entry =>
    by_cases he : entry.1 = file.mtime
    · simp only [getParsedFile, hc, he, if_pos rfl]
      exact ⟨(hcoh file.path entry hc).trans
        (values_indep_of_file entry.2.file file (vault.content file.path)), hcoh⟩
    · simp only [getParsedFile, hc, if_neg he]
      refine ⟨rfl, ?_⟩
      intro path e hpath
      by_cases hp : file.path = path
      · subst hp
        rw [mget_mset_self] at hpath
        injection hpath with hpath
        rw [← hpath]
        rfl
      · rw [mget_mset_ne _ _ _ _ hp] at hpath
        exact hcoh path e hpath
  | none =>
    simp only [getParsedFile, hc]
    refine ⟨rfl, ?_⟩
    intro path e hpath
    by_cases hp : file.path = path
    · subst hp
      rw [mget_mset_self] at hpath
      injection hpath with hpath
      rw [← hpath]
      rfl
    · rw [mget_mset_ne _ _ _ _ hp] at hpath
      exact hcoh path e hpath

theorem mem_scanFileStep_mono (vault : Vault) (dates : List String) (st : ScanState)
    (file : TFile) (x : String) (hx : x ∈ st.habitsFound) :
    x ∈ (scanFileStep vault dates st file).habitsFound := by
  simp only [scanFileStep]
  exact mem_dateFold_mono dates _ (st.aggregates, st.habitsFound) x hx

theorem mem_filesFold_mono (vault : Vault) (dates : List String) (files : List TFile) :
    ∀ st x, x ∈ st.habitsFound →
      x ∈ (files.foldl (scanFileStep vault dates) st).habitsFound := by
  induction files with
  | nil => intro st x hx; exact hx
  | cons f rest ih =>
    intro st x hx
    exact ih _ x (mem_scanFileStep_mono vault dates st f x hx)

theorem scanFiles_mem (vault : Vault) (dates : List String) (files : List TFile) :
    ∀ st : ScanState, CacheCoherent vault st.cache →
      ∀ file ∈ files, ∀ date habit v vs, dates.contains date = true →
        mget (parsedValuesOf vault file) date = some vs →
        mget vs habit = some v →
        habit ∈ (files.foldl (scanFileStep vault dates) st).habitsFound := by
  induction files with
  | nil => intro st _ file hfile; simp at hfile
  | cons f rest ih =>
    intro st hcoh file hfile date habit v vs hdate hvs hv
    have hco := getParsedFile_coherent vault st.cache f hcoh
    rcases List.mem_cons.mp hfile with heq | htail
    · subst heq
      rw [List.foldl_cons]
      have hmem1 : (date, vs) ∈ (getParsedFile vault st.cache file).parsed.valuesByDateHabit := by
        rw [hco.1]
        exact mem_of_mget_eq_some _ _ _ hvs
      have hmem2 : (habit, v) ∈ vs := mem_of_mget_eq_some _ _ _ hv
      have hstep : habit ∈ (scanFileStep vault dates st file).habitsFound := by
        simp only [scanFileStep]
        exact mem_dateFold_self dates _ (st.aggregates, st.habitsFound) date vs habit v
          hmem1 hdate hmem2
      exact mem_filesFold_mono vault dates rest _ habit hstep
    · rw [List.foldl_cons]
      exact ih (scanFileStep vault dates st f) hco.2 file htail date habit v vs hdate hvs hv

/-- C1 (amended): a habit name is recorded into `ScanResult.habitsFound`
for every scanned document in which it appears in the parsed value map under
at least one date *inside* the requested range's date set; habit names whose
dates all lie outside the range are not tracked (see the counterexample). -/
theorem claim_C1 (vault : Vault) (cache : Cache) (currentFile : TFile)
    (range : RangeResolution) (file : TFile) (date habit : String)
    (v : ResolvedHabitValue) (vs : List (String × ResolvedHabitValue))
    (hcoh : CacheCoherent vault cache)
    (hfile : file ∈ getFilesForRange vault currentFile range.type)
    (hdate : range.dates.contains date = true)
    (hvs : mget (parsedValuesOf vault file) date = some vs)
    (hv : mget vs habit = some v) :
    habit ∈ (scan vault cache currentFile range).1.habitsFound := by
  simp only [scan]
  exact scanFiles_mem vault range.dates (getFilesForRange vault currentFile range.type)
    ⟨cache, [], [], []⟩ hcoh file hfile date habit v vs hdate hvs hv

/-- Witness for C1 at a concrete in-range scan. -/
theorem claim_C1_witness :
    "run" ∈ (scan ⟨[], fun _ => "## 2024.02.01\nhabit-run::true"⟩ [] ⟨"w.md", "w", 0⟩
      ⟨"week", "2024-02-01", "2024-02-01", ["2024-02-01"]⟩).1.habitsFound := by
  apply claim_C1 ⟨[], fun _ => "## 2024.02.01\nhabit-run::true"⟩ [] ⟨"w.md", "w", 0⟩
    ⟨"week", "2024-02-01", "2024-02-01", ["2024-02-01"]⟩ ⟨"w.md", "w", 0⟩
    "2024-02-01" "run" (ResolvedHabitValue.boolean true) [("run", ResolvedHabitValue.boolean true)]
  · intro path e h
    simp [mget] at h
  · decide
  · decide
  · decide
  · decide

/-- Counterexample to C1 as stated: a habit whose only date lies outside the
requested range appears in the document's parsed value map but is *not*
added to `habitsFound` (the tracking happens inside the range filter). -/
theorem claim_C1_cex :
    (scan ⟨[], fun _ => "## 2024.01.01\nhabit-run::true"⟩ [] ⟨"w.md", "w", 0⟩
      ⟨"week", "2024-02-01", "2024-02-01", ["2024-02-01"]⟩).1.habitsFound = [] ∧
    mget2 (parsedValuesOf ⟨[], fun _ => "## 2024.01.01\nhabit-run::true"⟩ ⟨"w.md", "w", 0⟩)
      "2024-01-01" "run" = some (ResolvedHabitValue.boolean true) ∧
    (scan ⟨[], fun _ => "## 2024.01.01\nhabit-run::true"⟩ [] ⟨"w.md", "w", 0⟩
      ⟨"week", "2024-02-01", "2024-02-01", ["2024-02-01"]⟩).1.scannedFiles =
      [⟨"w.md", "w", 0⟩] := by
  refine ⟨by decide, by decide, by decide⟩

end HH
